import Mathlib

/-!
Verification development for the matching/settlement engine of a
binary-outcome prediction market (`backend/engine/order_book.py`,
`backend/engine/matcher.py`, `backend/services/positions.py`,
`backend/services/settlement.py`, `backend/market_maker/bot.py`).

Modelling conventions:
* Python `float` prices and money amounts are modelled as exact rationals
  (`ℚ`); every float is a rational, and all comparisons the code performs
  are exact comparisons of the stored values.  Counterexample inputs are
  chosen so that the rational result and the float result agree.
* Python `int` quantities are modelled as `ℕ` where the code keeps them
  non-negative (validated order quantities, resting quantities), and as
  `ℤ` where a caller could pass any integer (the `quantity` argument of
  `process_order`, which is validated inside).
* Python `round(x, n)` (банker's rounding to `n` decimal digits) is
  modelled by `roundQ n` using round-half-to-even on the exact rational.
* `datetime.utcnow()` timestamps are modelled as a `ℕ` supplied by the
  caller (`now`); the engine only ever compares them with `<` in
  `BookOrder.__lt__`.
* `uuid4()` trade identifiers are modelled as the opaque string `""`;
  no claim depends on them.
* Exceptions (`raise ValueError`) are modelled with `Except String`.
  Because Python mutates `self` in place, an operation that raises after
  a mutation still keeps that mutation; therefore the engine operations
  return `Except String α × MatchingEngine`, the second component being
  the state as left behind even on error.
-/

/-- Floor of a rational, via `Int.floor`. -/
def qfloor (q : ℚ) : ℤ := ⌊q⌋

/-- Python's `round(x, n)` on the exact rational value: round half to even
at `n` decimal digits.  (CPython rounds the nearest-decimal of the binary
float; on all inputs used concretely below the two agree.) -/
def roundQ (n : ℕ) (q : ℚ) : ℚ :=
  let s : ℚ := q * (10 : ℚ) ^ n
  let f : ℤ := qfloor s
  let frac : ℚ := s - f
  let r : ℤ :=
    if frac < 1/2 then f
    else if 1/2 < frac then f + 1
    else if f % 2 = 0 then f else f + 1
  (r : ℚ) / (10 : ℚ) ^ n

/-- ASCII upper-casing of one character, as Python `str.upper` acts on the
ASCII strings the engine compares (`"YES"`, `"NO"`, and whatever the caller
passed as `side`). -/
def upChar (c : Char) : Char :=
  if 97 ≤ c.toNat ∧ c.toNat ≤ 122 then Char.ofNat (c.toNat - 32) else c

/-- Python `side.upper()` for the ASCII side strings. -/
def pyUpper (s : String) : String := String.mk (s.data.map upChar)

/-- `order_book.BookSide` (enum `BID` / `ASK`). -/
inductive BookSide where
  | BID : BookSide
  | ASK : BookSide
deriving DecidableEq, Repr

/-- `order_book.BookOrder`: one resting order in a price level. -/
structure BookOrder where
  order_id : String
  user_id : String
  price : ℚ
  quantity : ℕ
  timestamp : ℕ
  is_market_maker : Bool
deriving DecidableEq, Repr

/-- `BookOrder.__lt__`: comparison by arrival timestamp (used by
`bisect.insort` in `PriceLevel.add_order`). -/
def BookOrder.lt (a b : BookOrder) : Prop := a.timestamp < b.timestamp

instance : DecidablePred fun p : BookOrder × BookOrder => BookOrder.lt p.1 p.2 :=
  fun p => inferInstanceAs (Decidable (p.1.timestamp < p.2.timestamp))

/-- `bisect.insort(self.orders, order)`: insert before the first element
strictly greater (by `BookOrder.__lt__`), i.e. after all elements `≤` the
new order.  This linear-scan formulation agrees with binary-search
`bisect.insort_right` on the arrival-ordered lists the engine builds. -/
def insortRight (l : List BookOrder) (o : BookOrder) : List BookOrder :=
  match l with
  | [] => [o]
  | y :: ys => if o.timestamp < y.timestamp then o :: y :: ys else y :: insortRight ys o

/-- `order_book.PriceLevel`: a price plus its resting orders. -/
structure PriceLevel where
  price : ℚ
  orders : List BookOrder
deriving DecidableEq, Repr

/-- `PriceLevel.total_quantity`. -/
def PriceLevel.total_quantity (lvl : PriceLevel) : ℕ :=
  (lvl.orders.map BookOrder.quantity).sum

/-- `PriceLevel.add_order`. -/
def PriceLevel.add_order (lvl : PriceLevel) (o : BookOrder) : PriceLevel :=
  { lvl with orders := insortRight lvl.orders o }

/-- The linear scan inside `PriceLevel.remove_order`: pop the first order
with the given id, returning it and the remaining list. -/
def removeFirstOrder (oid : String) : List BookOrder → Option BookOrder × List BookOrder
  | [] => (none, [])
  | o :: os =>
    if o.order_id = oid then (some o, os)
    else
      let r := removeFirstOrder oid os
      (r.1, o :: r.2)

/-- `PriceLevel.remove_order`. -/
def PriceLevel.remove_order (lvl : PriceLevel) (oid : String) :
    Option BookOrder × PriceLevel :=
  let r := removeFirstOrder oid lvl.orders
  (r.1, { lvl with orders := r.2 })

/-- The scan-order test of `OrderBookSide._find_level_index`: the walk has
gone past `p` when a bid level's price is below `p`, or an ask level's price
is above `p` (levels are kept best-first). -/
def pastPrice (side : BookSide) (lvlPrice p : ℚ) : Bool :=
  match side with
  | .BID => decide (lvlPrice < p)
  | .ASK => decide (p < lvlPrice)

/-- `OrderBookSide._find_level_index` fused with the insertion that
`OrderBookSide.add_order` performs at the found index: walk the levels in
book order; append to an exact-price level, otherwise create a new level at
the first position whose price is past the new price (bid side: first level
with smaller price; ask side: first level with larger price). -/
def sideAddOrder (side : BookSide) (o : BookOrder) : List PriceLevel → List PriceLevel
  | [] => [PriceLevel.add_order { price := o.price, orders := [] } o]
  | lvl :: rest =>
    if lvl.price = o.price then lvl.add_order o :: rest
    else if pastPrice side lvl.price o.price then
      PriceLevel.add_order { price := o.price, orders := [] } o :: lvl :: rest
    else lvl :: sideAddOrder side o rest

/-- `OrderBookSide._find_level_index` fused with `OrderBookSide.remove_order`:
locate the exact-price level (scanning in book order and giving up once past
the price), remove the order from it, drop the level if it became empty.
Returns the removed order (or `none`) and the updated levels. -/
def sideRemoveOrder (side : BookSide) (oid : String) (price : ℚ) :
    List PriceLevel → Option BookOrder × List PriceLevel
  | [] => (none, [])
  | lvl :: rest =>
    if lvl.price = price then
      let r := lvl.remove_order oid
      match r.1 with
      | none => (none, lvl :: rest)
      | some o => if r.2.orders = [] then (some o, rest) else (some o, r.2 :: rest)
    else if pastPrice side lvl.price price then (none, lvl :: rest)
    else
      let r := sideRemoveOrder side oid price rest
      (r.1, lvl :: r.2)

/-- `OrderBookSide.get_best`. -/
def sideGetBest (levels : List PriceLevel) : Option PriceLevel := levels.head?

/-- `OrderBookSide.get_best_price`. -/
def sideGetBestPrice (levels : List PriceLevel) : Option ℚ :=
  (sideGetBest levels).map PriceLevel.price

/-- `OrderBookSide.get_depth`. -/
def sideGetDepth (levels : List PriceLevel) (num_levels : ℕ) : List (ℚ × ℕ) :=
  (levels.take num_levels).map fun lvl => (lvl.price, lvl.total_quantity)

/-- `order_book.OrderBook`: a bid side and an ask side (each
`OrderBookSide` is its list of levels; the stored `side` tag of the Python
object is supplied to the level functions where the code reads it). -/
structure OrderBook where
  bids : List PriceLevel
  asks : List PriceLevel
deriving DecidableEq, Repr

/-- The book with both sides empty, as `OrderBook.__init__` builds. -/
def OrderBook.empty : OrderBook := { bids := [], asks := [] }

/-- `OrderBook.add_order`. -/
def OrderBook.add_order (b : OrderBook) (o : BookOrder) (side : BookSide) : OrderBook :=
  match side with
  | .BID => { b with bids := sideAddOrder .BID o b.bids }
  | .ASK => { b with asks := sideAddOrder .ASK o b.asks }

/-- `OrderBook.remove_order`. -/
def OrderBook.remove_order (b : OrderBook) (oid : String) (price : ℚ) (side : BookSide) :
    Option BookOrder × OrderBook :=
  match side with
  | .BID =>
    let r := sideRemoveOrder .BID oid price b.bids
    (r.1, { b with bids := r.2 })
  | .ASK =>
    let r := sideRemoveOrder .ASK oid price b.asks
    (r.1, { b with asks := r.2 })

/-- `OrderBook.get_best_bid`. -/
def OrderBook.get_best_bid (b : OrderBook) : Option ℚ := sideGetBestPrice b.bids

/-- `OrderBook.get_best_ask`. -/
def OrderBook.get_best_ask (b : OrderBook) : Option ℚ := sideGetBestPrice b.asks

/-- `OrderBook.get_spread`. -/
def OrderBook.get_spread (b : OrderBook) : Option ℚ :=
  match b.get_best_bid, b.get_best_ask with
  | some bid, some ask => some (roundQ 2 (ask - bid))
  | _, _ => none

/-- `OrderBook.get_mid_price`. -/
def OrderBook.get_mid_price (b : OrderBook) : Option ℚ :=
  match b.get_best_bid, b.get_best_ask with
  | some bid, some ask => some (roundQ 2 ((bid + ask) / 2))
  | _, _ => none

/-- `order_book.MarketOrderBooks`: the YES and NO books for one market. -/
structure MarketOrderBooks where
  market_id : String
  yes_book : OrderBook
  no_book : OrderBook
deriving DecidableEq, Repr

/-- Fresh books, as `MarketOrderBooks.__init__` builds. -/
def MarketOrderBooks.init (mid : String) : MarketOrderBooks :=
  { market_id := mid, yes_book := OrderBook.empty, no_book := OrderBook.empty }

/-- `MarketOrderBooks.get_book`: dispatch on `side.upper()`, raising
`ValueError` for anything other than `"YES"` / `"NO"`. -/
def MarketOrderBooks.get_book (m : MarketOrderBooks) (side : String) :
    Except String OrderBook :=
  if pyUpper side = "YES" then .ok m.yes_book
  else if pyUpper side = "NO" then .ok m.no_book
  else .error "Invalid side"

/-- Writing back the book `get_book` returned: Python returns an alias into
`self`, so every mutation of the returned book is a mutation of this field.
Only used on sides `get_book` accepted. -/
def MarketOrderBooks.set_book (m : MarketOrderBooks) (side : String) (b : OrderBook) :
    MarketOrderBooks :=
  if pyUpper side = "YES" then { m with yes_book := b }
  else if pyUpper side = "NO" then { m with no_book := b }
  else m

/-- `matcher.TradeResult`. -/
structure TradeResult where
  trade_id : String
  market_id : String
  side : String
  buyer_order_id : String
  seller_order_id : String
  buyer_user_id : String
  seller_user_id : String
  price : ℚ
  quantity : ℕ
  total : ℚ
  executed_at : ℕ
deriving DecidableEq, Repr

/-- `matcher.MatchResult`. -/
structure MatchResult where
  order_id : String
  trades : List TradeResult
  filled_quantity : ℕ
  remaining_quantity : ℕ
  added_to_book : Bool
deriving DecidableEq, Repr

/-- `MatchResult.fully_filled`. -/
def MatchResult.fully_filled (r : MatchResult) : Prop := r.remaining_quantity = 0

/-- `matcher.MatchingEngine`: the dictionary of `MarketOrderBooks` keyed by
market id, as an association list in insertion order. -/
structure MatchingEngine where
  books : List (String × MarketOrderBooks)
deriving DecidableEq, Repr

/-- A fresh engine (`MatchingEngine.__init__`). -/
def MatchingEngine.init : MatchingEngine := { books := [] }

/-- Dictionary lookup `self.books[market_id]`. -/
def lookupBooks : List (String × MarketOrderBooks) → String → Option MarketOrderBooks
  | [], _ => none
  | (k, v) :: rest, mid => if k = mid then some v else lookupBooks rest mid

/-- Dictionary write `self.books[market_id] = m` for a key already present. -/
def storeBooks : List (String × MarketOrderBooks) → String → MarketOrderBooks →
    List (String × MarketOrderBooks)
  | [], _, _ => []
  | (k, v) :: rest, mid, m =>
    if k = mid then (k, m) :: rest else (k, v) :: storeBooks rest mid m

/-- `MatchingEngine.get_or_create_books`. -/
def MatchingEngine.get_or_create_books (e : MatchingEngine) (mid : String) :
    MarketOrderBooks × MatchingEngine :=
  match lookupBooks e.books mid with
  | some m => (m, e)
  | none => (MarketOrderBooks.init mid, { books := e.books ++ [(mid, MarketOrderBooks.init mid)] })

/-- The `price_acceptable` closure of `MatchingEngine._match_order`: a
MARKET order accepts any resting price, a LIMIT BUY accepts resting prices
`≤` its own price, a LIMIT SELL accepts resting prices `≥` its own price.
(For an order type that is neither `"MARKET"` nor priced, the source would
raise `TypeError` comparing `None` before mutating the book; modelled as
the price not being acceptable, which likewise stops matching with the book
untouched.) -/
def priceAcceptable (order_type action : String) (price : Option ℚ) (resting : ℚ) : Bool :=
  if order_type = "MARKET" then true
  else
    match price with
    | some p => if action = "BUY" then decide (resting ≤ p) else decide (p ≤ resting)
    | none => false

/-- The trade record built inside `_match_order` for a fill of `fill_qty`
against resting order `o` (buyer/seller attributed by the incoming action). -/
def mkTrade (market_id order_id user_id side action : String) (now : ℕ)
    (o : BookOrder) (fill_qty : ℕ) : TradeResult :=
  { trade_id := ""
    market_id := market_id
    side := side
    buyer_order_id := if action = "BUY" then order_id else o.order_id
    seller_order_id := if action = "BUY" then o.order_id else order_id
    buyer_user_id := if action = "BUY" then user_id else o.user_id
    seller_user_id := if action = "BUY" then o.user_id else user_id
    price := o.price
    quantity := fill_qty
    total := roundQ 4 (o.price * fill_qty)
    executed_at := now }

/-- The inner `while remaining > 0 and best_level.orders` walk of
`_match_order` over the orders of the best level: skip-and-drop the user's
own resting orders without a trade, otherwise fill `min remaining quantity`
at the resting order's price, popping the resting order when it reaches
zero.  When the resting order only partially fills, `remaining` necessarily
becomes `0` and the loop exits, which the last branch returns directly. -/
def matchInner (market_id order_id user_id side action : String) (now : ℕ) :
    List BookOrder → ℕ → List TradeResult → List BookOrder × ℕ × List TradeResult
  | [], remaining, trades => ([], remaining, trades)
  | o :: rest, remaining, trades =>
    if remaining = 0 then (o :: rest, remaining, trades)
    else if o.user_id = user_id then
      matchInner market_id order_id user_id side action now rest remaining trades
    else
      let fill_qty := min remaining o.quantity
      let t := mkTrade market_id order_id user_id side action now o fill_qty
      if o.quantity - fill_qty = 0 then
        matchInner market_id order_id user_id side action now rest
          (remaining - fill_qty) (trades ++ [t])
      else
        ({ o with quantity := o.quantity - fill_qty } :: rest,
          remaining - fill_qty, trades ++ [t])

/-- The outer `while remaining > 0` loop of `_match_order` over the levels
of the opposing side: stop when no level remains or the best level's price
fails `price_acceptable`; otherwise run the inner walk, pop the level if it
emptied, and continue.  If the inner walk left orders at the level it is
because `remaining` reached `0`, and the loop exits with that level kept. -/
def matchOuter (market_id order_id user_id side action order_type : String)
    (price : Option ℚ) (now : ℕ) :
    List PriceLevel → ℕ → List TradeResult → List TradeResult × ℕ × List PriceLevel
  | levels, remaining, trades =>
    if remaining = 0 then (trades, remaining, levels)
    else
      match levels with
      | [] => (trades, remaining, [])
      | lvl :: rest =>
        if priceAcceptable order_type action price lvl.price = false then
          (trades, remaining, lvl :: rest)
        else
          let r := matchInner market_id order_id user_id side action now
            lvl.orders remaining trades
          if r.1 = [] then
            matchOuter market_id order_id user_id side action order_type price now
              rest r.2.1 r.2.2
          else (r.2.2, r.2.1, { price := lvl.price, orders := r.1 } :: rest)

/-- `MatchingEngine._match_order` on a resolved book: pick the opposing
side (BUY walks the asks, anything else walks the bids), run the loop, and
return the trades, the remaining quantity, and the book with that side
updated. -/
def matchOrderOnBook (book : OrderBook) (market_id order_id user_id side action
    order_type : String) (quantity : ℕ) (price : Option ℚ) (now : ℕ) :
    List TradeResult × ℕ × OrderBook :=
  if action = "BUY" then
    let r := matchOuter market_id order_id user_id side action order_type price now
      book.asks quantity []
    (r.1, r.2.1, { book with asks := r.2.2 })
  else
    let r := matchOuter market_id order_id user_id side action order_type price now
      book.bids quantity []
    (r.1, r.2.1, { book with bids := r.2.2 })

/-- The book-level slice of `process_order` after the books are resolved:
run the matching loop, then rest any remaining LIMIT quantity on the
incoming order's own side (BUY → bid side, SELL → ask side) at the incoming
price.  Returns (trades, remaining, added_to_book, updated book). -/
def bookSubmit (book : OrderBook) (market_id order_id user_id side action
    order_type : String) (q : ℕ) (price : Option ℚ) (is_market_maker : Bool)
    (now : ℕ) : List TradeResult × ℕ × Bool × OrderBook :=
  let m := matchOrderOnBook book market_id order_id user_id side action
    order_type q price now
  let rested : Bool × OrderBook :=
    if m.2.1 > 0 ∧ order_type = "LIMIT" then
      match price with
      | some p =>
        (true, m.2.2.add_order
          { order_id := order_id, user_id := user_id, price := p,
            quantity := m.2.1, timestamp := now,
            is_market_maker := is_market_maker }
          (if action = "BUY" then .BID else .ASK))
      | none => (false, m.2.2)
    else (false, m.2.2)
  (m.1, m.2.1, rested.1, rested.2)

/-- `MatchingEngine.process_order`.  Validation happens before any state is
touched; the books dictionary entry is created (and survives) even when
`get_book` then raises on an invalid side.  After matching, a LIMIT order
with remaining quantity rests on its own side of the book.  Returns the
result (or the raised error) together with the engine state left behind. -/
def MatchingEngine.process_order (e : MatchingEngine) (market_id order_id user_id
    side action order_type : String) (quantity : ℤ) (price : Option ℚ)
    (is_market_maker : Bool) (now : ℕ) : Except String MatchResult × MatchingEngine :=
  if order_type = "LIMIT" ∧ price = none then
    (.error "LIMIT orders require a price", e)
  else if order_type = "LIMIT" ∧ ((price.getD 0) < 1/100 ∨ 99/100 < (price.getD 0)) then
    (.error "Price must be between 0.01 and 0.99", e)
  else if quantity ≤ 0 then
    (.error "Quantity must be positive", e)
  else
    let q : ℕ := quantity.toNat
    let r0 := e.get_or_create_books market_id
    let books := r0.1
    let e1 := r0.2
    match books.get_book side with
    | .error msg => (.error msg, e1)
    | .ok book =>
      let m := bookSubmit book market_id order_id user_id side action
        order_type q price is_market_maker now
      let e2 : MatchingEngine :=
        { books := storeBooks e1.books market_id (books.set_book side m.2.2.2) }
      (.ok { order_id := order_id, trades := m.1, filled_quantity := q - m.2.1,
             remaining_quantity := m.2.1, added_to_book := m.2.2.1 }, e2)

/-- `MatchingEngine.cancel_order`: resolves the books (creating them for an
unknown market, exactly as `process_order` does), picks the book side from
the action, removes the order at the given price, and reports whether one
was removed. -/
def MatchingEngine.cancel_order (e : MatchingEngine) (market_id order_id side
    action : String) (price : ℚ) : Except String Bool × MatchingEngine :=
  let r0 := e.get_or_create_books market_id
  let books := r0.1
  let e1 := r0.2
  match books.get_book side with
  | .error msg => (.error msg, e1)
  | .ok book =>
    let bs : BookSide := if action = "BUY" then .BID else .ASK
    let r := book.remove_order order_id price bs
    (.ok r.1.isSome,
      { books := storeBooks e1.books market_id (books.set_book side r.2) })

/-- `models.Position`: one (user, market) row of the position ledger. -/
structure Position where
  user_id : String
  market_id : String
  yes_shares : ℕ
  no_shares : ℕ
  yes_avg_price : ℚ
  no_avg_price : ℚ
  yes_cost_basis : ℚ
  no_cost_basis : ℚ
  realized_pnl : ℚ
deriving DecidableEq, Repr

/-- The zeroed row `positions.get_or_create_position` inserts when no row
exists for the (user, market) pair. -/
def freshPosition (uid mid : String) : Position :=
  { user_id := uid, market_id := mid, yes_shares := 0, no_shares := 0,
    yes_avg_price := 0, no_avg_price := 0, yes_cost_basis := 0,
    no_cost_basis := 0, realized_pnl := 0 }

/-- `positions.update_position_for_buy`: weighted-average price, cost basis
increased by `quantity * price`, shares increased.  The Python branches on
`side == "YES"`; both branches act identically on their side's fields. -/
def update_position_for_buy (p : Position) (side : String) (quantity : ℕ)
    (price : ℚ) : Position :=
  let cost : ℚ := quantity * price
  if side = "YES" then
    let new_shares := p.yes_shares + quantity
    let new_avg : ℚ :=
      if new_shares > 0 then
        ((p.yes_shares * p.yes_avg_price) + (quantity * price)) / new_shares
      else 0
    { p with yes_shares := new_shares, yes_avg_price := roundQ 4 new_avg,
             yes_cost_basis := roundQ 4 (p.yes_cost_basis + cost) }
  else
    let new_shares := p.no_shares + quantity
    let new_avg : ℚ :=
      if new_shares > 0 then
        ((p.no_shares * p.no_avg_price) + (quantity * price)) / new_shares
      else 0
    { p with no_shares := new_shares, no_avg_price := roundQ 4 new_avg,
             no_cost_basis := roundQ 4 (p.no_cost_basis + cost) }

/-- `positions.update_position_for_sell`: raises when selling more shares
than held; otherwise realizes `(price - avg) * quantity`, reduces the cost
basis by `avg * quantity` clamped at zero, reduces shares, and resets the
average price when shares reach zero. -/
def update_position_for_sell (p : Position) (side : String) (quantity : ℕ)
    (price : ℚ) : Except String Position :=
  if side = "YES" then
    if quantity > p.yes_shares then .error "Cannot sell more shares than owned"
    else
      let realized := (price - p.yes_avg_price) * quantity
      let new_shares := p.yes_shares - quantity
      let new_cost := p.yes_cost_basis - p.yes_avg_price * quantity
      .ok { p with yes_shares := new_shares,
                   yes_cost_basis := roundQ 4 (max 0 new_cost),
                   realized_pnl := roundQ 4 (p.realized_pnl + realized),
                   yes_avg_price := if new_shares = 0 then 0 else p.yes_avg_price }
  else
    if quantity > p.no_shares then .error "Cannot sell more shares than owned"
    else
      let realized := (price - p.no_avg_price) * quantity
      let new_shares := p.no_shares - quantity
      let new_cost := p.no_cost_basis - p.no_avg_price * quantity
      .ok { p with no_shares := new_shares,
                   no_cost_basis := roundQ 4 (max 0 new_cost),
                   realized_pnl := roundQ 4 (p.realized_pnl + realized),
                   no_avg_price := if new_shares = 0 then 0 else p.no_avg_price }

/-- `positions.get_or_create_position` over the list of ledger rows (the
`Position` table in insertion order): return the first row for the (user,
market) pair, or append a fresh zeroed row. -/
def get_or_create_position (ps : List Position) (uid mid : String) :
    Position × List Position :=
  match ps.find? fun p => p.user_id = uid ∧ p.market_id = mid with
  | some p => (p, ps)
  | none => (freshPosition uid mid, ps ++ [freshPosition uid mid])

/-- Writing back a mutated row: Python mutates the row object `first()`
returned in place, so the first row for the (user, market) pair is replaced
where it stands. -/
def storePosition : List Position → Position → List Position
  | [], _ => []
  | q :: qs, p =>
    if q.user_id = p.user_id ∧ q.market_id = p.market_id then p :: qs
    else q :: storePosition qs p

/-- `positions.process_trade_for_positions`: create-or-fetch both
counterparties' rows, apply the buy to the buyer's and the sell to the
seller's.  No user id is exempted — the market maker's id flows through
exactly like any other (its caller `routes._process_trade` passes
`buyer_user_id` / `seller_user_id` unconditionally, despite its comment
"this function skips market maker internally"). -/
def process_trade_for_positions (ps : List Position) (side : String)
    (quantity : ℕ) (price : ℚ) (buyer_user_id seller_user_id market_id : String) :
    Except String (List Position) :=
  let rb := get_or_create_position ps buyer_user_id market_id
  let rs := get_or_create_position rb.2 seller_user_id market_id
  let ps1 := storePosition rs.2 (update_position_for_buy
    (if buyer_user_id = seller_user_id then rs.1 else rb.1) side quantity price)
  let rs1 := get_or_create_position ps1 seller_user_id market_id
  match update_position_for_sell rs1.1 side quantity price with
  | .error e => .error e
  | .ok p' => .ok (storePosition ps1 p')

/-- `settlement.SettlementResult`. -/
structure SettlementResult where
  user_id : String
  market_id : String
  winning_shares : ℕ
  losing_shares : ℕ
  payout : ℚ
  winning_cost_basis : ℚ
  losing_cost_basis : ℚ
  profit_loss : ℚ
  new_balance : ℚ
deriving DecidableEq, Repr

/-- `settlement.MarketSettlementSummary`. -/
structure MarketSettlementSummary where
  market_id : String
  outcome : String
  total_payout : ℚ
  positions_settled : ℕ
  results : List SettlementResult
deriving DecidableEq, Repr

/-- The user table slice settlement touches: id to balance, in row order. -/
abbrev UserTable := List (String × ℚ)

/-- `db.query(User).filter(User.id == uid).first()`. -/
def lookupUser (us : UserTable) (uid : String) : Option ℚ :=
  (us.find? fun u => u.1 = uid).map Prod.snd

/-- Writing back a mutated user balance (the first row with the id, as
`first()` returned it). -/
def storeUser : UserTable → String → ℚ → UserTable
  | [], _, _ => []
  | u :: us, uid, bal =>
    if u.1 = uid then (u.1, bal) :: us else u :: storeUser us uid bal

/-- `settlement.settle_position`: pay `winning_shares * 1.00` to the user,
fold `(payout - winning cost) + (0 - losing cost)` into realized P&L, zero
the shares and cost bases.  Raises when the user row is missing. -/
def settle_position (p : Position) (winning_side : String) (us : UserTable) :
    Except String (SettlementResult × Position × UserTable) :=
  match lookupUser us p.user_id with
  | none => .error "User not found"
  | some balance =>
    let winning_shares := if winning_side = "YES" then p.yes_shares else p.no_shares
    let losing_shares := if winning_side = "YES" then p.no_shares else p.yes_shares
    let winning_cost := if winning_side = "YES" then p.yes_cost_basis else p.no_cost_basis
    let losing_cost := if winning_side = "YES" then p.no_cost_basis else p.yes_cost_basis
    let payout : ℚ := winning_shares * 1
    let total_pnl := (payout - winning_cost) + (0 - losing_cost)
    let new_balance := roundQ 4 (balance + payout)
    let p' : Position :=
      { p with realized_pnl := roundQ 4 (p.realized_pnl + total_pnl),
               yes_shares := 0, no_shares := 0,
               yes_cost_basis := 0, no_cost_basis := 0 }
    .ok ({ user_id := p.user_id, market_id := p.market_id,
           winning_shares := winning_shares, losing_shares := losing_shares,
           payout := roundQ 4 payout, winning_cost_basis := roundQ 4 winning_cost,
           losing_cost_basis := roundQ 4 losing_cost,
           profit_loss := roundQ 4 total_pnl, new_balance := new_balance },
         p', storeUser us p.user_id new_balance)

/-- The `for position in positions` loop of `settlement.resolve_market`:
positions of the market with shares on either side are settled in row
order, the rest are left untouched; results and the float-summed payout
accumulate.  Any `settle_position` failure aborts (the exception
propagates). -/
def settleLoop (mid winning_side : String) :
    List Position → UserTable →
    Except String (List Position × UserTable × List SettlementResult × ℚ)
  | [], us => .ok ([], us, [], 0)
  | p :: ps, us =>
    if p.market_id = mid ∧ ¬(p.yes_shares = 0 ∧ p.no_shares = 0) then
      match settle_position p winning_side us with
      | .error e => .error e
      | .ok r =>
        match settleLoop mid winning_side ps r.2.2 with
        | .error e => .error e
        | .ok rest => .ok (r.2.1 :: rest.1, rest.2.1, r.1 :: rest.2.2.1,
            r.1.payout + rest.2.2.2)
    else
      match settleLoop mid winning_side ps us with
      | .error e => .error e
      | .ok rest => .ok (p :: rest.1, rest.2.1, rest.2.2.1, rest.2.2.2)

/-- `models.MarketStatus` values settlement inspects. -/
inductive MarketStatus where
  | OPEN : MarketStatus
  | CLOSED : MarketStatus
  | RESOLVED : MarketStatus
deriving DecidableEq, Repr

/-- The market table slice settlement touches: id and status, in row
order.  (`cancel_market_orders` only flips `Order` rows' statuses, which no
claim below inspects; it is left out of the state.) -/
abbrev MarketTable := List (String × MarketStatus)

/-- `settlement.resolve_market`: fail on an unknown or already-resolved
market; otherwise settle every position of the market with nonzero shares,
mark the market resolved, and return the summary.  Returns the updated
positions, users and markets alongside. -/
def resolve_market (ms : MarketTable) (ps : List Position) (us : UserTable)
    (market_id : String) (outcome : Bool) :
    Except String (MarketSettlementSummary × List Position × UserTable × MarketTable) :=
  match (ms.find? fun m => m.1 = market_id).map Prod.snd with
  | none => .error "Market not found"
  | some st =>
    if st = MarketStatus.RESOLVED then .error "Market already resolved"
    else
      let winning_side := if outcome then "YES" else "NO"
      match settleLoop market_id winning_side ps us with
      | .error e => .error e
      | .ok r =>
        .ok ({ market_id := market_id, outcome := winning_side,
               total_payout := roundQ 4 r.2.2.2,
               positions_settled := r.2.2.1.length, results := r.2.2.1 },
             r.1, r.2.1,
             ms.map fun m => if m.1 = market_id then (m.1, MarketStatus.RESOLVED) else m)

/-- `bot.MarketMakerConfig` (defaults in parentheses): spread (0.04), base
size (100), default fair price (0.50), max inventory (500), inventory skew
factor (0.01), min price (0.01), max price (0.99). -/
structure MarketMakerConfig where
  spread : ℚ
  base_size : ℕ
  default_fair_price : ℚ
  max_inventory : ℤ
  inventory_skew_factor : ℚ
  min_price : ℚ
  max_price : ℚ
deriving DecidableEq, Repr

/-- The default `MarketMakerConfig()`. -/
def MarketMakerConfig.default : MarketMakerConfig :=
  { spread := 4/100, base_size := 100, default_fair_price := 1/2,
    max_inventory := 500, inventory_skew_factor := 1/100,
    min_price := 1/100, max_price := 99/100 }

/-- `bot.MarketMakerBot` state: per-market YES/NO inventory and fair
prices, each `none` until the lazy default is materialised. -/
structure MarketMakerBot where
  config : MarketMakerConfig
  inventory : List (String × (ℤ × ℤ))
  fair_prices : List (String × (ℚ × ℚ))
deriving DecidableEq, Repr

/-- `MarketMakerBot.get_fair_price` (reading side): the stored pair, or the
lazily-installed default `(default_fair_price, 1 - default_fair_price)`. -/
def MarketMakerBot.fair_pair (b : MarketMakerBot) (mid : String) : ℚ × ℚ :=
  match (b.fair_prices.find? fun e => e.1 = mid).map Prod.snd with
  | some pr => pr
  | none => (b.config.default_fair_price, 1 - b.config.default_fair_price)

/-- Dictionary assignment `self.fair_prices[market_id] = pair`: replace the
entry in place, or append a new one. -/
def storeFair : List (String × (ℚ × ℚ)) → String → ℚ × ℚ → List (String × (ℚ × ℚ))
  | [], mid, pr => [(mid, pr)]
  | e :: es, mid, pr =>
    if e.1 = mid then (mid, pr) :: es else e :: storeFair es mid pr

/-- `MarketMakerBot.set_fair_price`: validate the YES price into
`[0.01, 0.99]`, then store `{YES: yes_price, NO: round(1.0 - yes_price, 2)}`. -/
def MarketMakerBot.set_fair_price (b : MarketMakerBot) (mid : String)
    (yes_price : ℚ) : Except String MarketMakerBot :=
  if yes_price < 1/100 ∨ 99/100 < yes_price then
    .error "Fair price must be between 0.01 and 0.99"
  else
    .ok { b with
          fair_prices := storeFair b.fair_prices mid (yes_price, roundQ 2 (1 - yes_price)) }

/-- A fresh `MarketMakerBot(config)` with empty lazy dictionaries. -/
def MarketMakerBot.init (cfg : MarketMakerConfig) : MarketMakerBot :=
  { config := cfg, inventory := [], fair_prices := [] }

/-! ## Arithmetic facts about `roundQ` -/

/-- `roundQ n` is the identity on values with at most `n` decimal digits. -/
theorem roundQ_eq_self (n : ℕ) (q : ℚ) (z : ℤ) (hz : q * (10 : ℚ) ^ n = z) :
    roundQ n q = q := by
  have h10 : ((10 : ℚ)) ^ n ≠ 0 := by positivity
  simp only [roundQ, qfloor, hz, Int.floor_intCast, sub_self]
  rw [if_pos (by norm_num : (0 : ℚ) < 1/2)]
  field_simp
  linarith [hz]

/-- `roundQ n` rounds up when the fractional part at `n` digits exceeds a
half. -/
theorem roundQ_eq_up (n : ℕ) (q : ℚ) (z : ℤ) (h1 : (z : ℚ) ≤ q * (10 : ℚ) ^ n)
    (h2 : q * (10 : ℚ) ^ n < z + 1) (h3 : 1/2 < q * (10 : ℚ) ^ n - z) :
    roundQ n q = ((z + 1 : ℤ) : ℚ) / (10 : ℚ) ^ n := by
  have hf : ⌊q * (10 : ℚ) ^ n⌋ = z := by rw [Int.floor_eq_iff]; exact ⟨h1, h2⟩
  simp only [roundQ, qfloor, hf]
  rw [if_neg (by linarith), if_pos h3]

/-! ## C8: price-level insertion is append in arrival order -/

/-- `bisect.insort` appends whenever the new element is `≥` (by arrival
timestamp) everything already in the list. -/
theorem insortRight_eq_append (l : List BookOrder) (o : BookOrder)
    (h : ∀ x ∈ l, x.timestamp ≤ o.timestamp) : insortRight l o = l ++ [o] := by
  induction l with
  | nil => rfl
  | cons y ys ih =>
    have hy : y.timestamp ≤ o.timestamp := h y (List.mem_cons_self y ys)
    rw [insortRight, if_neg (by omega)]
    simp only [List.cons_append, List.cons.injEq, true_and]
    exact ih fun x hx => h x (List.mem_cons_of_mem y hx)

/-- C8: for every price level and every resting order whose arrival
timestamp is at least that of every order already at the level — which is
how the engine always inserts, since `process_order` stamps resting orders
with the current time — `PriceLevel.add_order` equals appending the order
at the end of the level's order sequence. -/
theorem C8_add_order_is_append (lvl : PriceLevel) (o : BookOrder)
    (h : ∀ x ∈ lvl.orders, x.timestamp ≤ o.timestamp) :
    lvl.add_order o = { lvl with orders := lvl.orders ++ [o] } := by
  simp only [PriceLevel.add_order]
  rw [insortRight_eq_append lvl.orders o h]

/-- Witness for C8 at a concrete level and order. -/
theorem C8_add_order_is_append_witness :
    PriceLevel.add_order
        { price := 1/2,
          orders := [{ order_id := "a", user_id := "u1", price := 1/2, quantity := 3,
                       timestamp := 0, is_market_maker := false }] }
        { order_id := "b", user_id := "u2", price := 1/2, quantity := 4,
          timestamp := 1, is_market_maker := false } =
      { price := 1/2,
        orders := [{ order_id := "a", user_id := "u1", price := 1/2, quantity := 3,
                     timestamp := 0, is_market_maker := false },
                   { order_id := "b", user_id := "u2", price := 1/2, quantity := 4,
                     timestamp := 1, is_market_maker := false }] } :=
  C8_add_order_is_append _ _ (by decide)

/-! ## C9: YES and NO fair prices -/

/-- Looking up the key just stored by dictionary assignment. -/
theorem storeFair_find (l : List (String × (ℚ × ℚ))) (mid : String) (pr : ℚ × ℚ) :
    ((storeFair l mid pr).find? fun e => e.1 = mid) = some (mid, pr) := by
  induction l with
  | nil => simp [storeFair]
  | cons e es ih =>
    by_cases he : e.1 = mid
    · simp [storeFair, he]
    · simp [storeFair, he, List.find?, ih]

/-- C9 (amended): the YES and NO fair prices sum to exactly 1 in the
default-initialised state, and after any `set_fair_price` call whose YES
price is a whole number of cents `k/100` with `1 ≤ k ≤ 99` (for such
prices `round(1.0 - yes, 2)` is exact).  For other accepted YES prices the
stored NO price is rounded to cents and the sum can differ from 1, see the
counterexample. -/
theorem C9_fair_price_sum (b : MarketMakerBot) (mid : String) (k : ℤ)
    (hk1 : 1 ≤ k) (hk99 : k ≤ 99) (b' : MarketMakerBot)
    (h : b.set_fair_price mid ((k : ℚ) / 100) = .ok b') :
    (((MarketMakerBot.init MarketMakerConfig.default).fair_pair mid).1 +
        ((MarketMakerBot.init MarketMakerConfig.default).fair_pair mid).2 = 1) ∧
    (b'.fair_pair mid).1 + (b'.fair_pair mid).2 = 1 := by
  constructor
  · simp [MarketMakerBot.init, MarketMakerBot.fair_pair, MarketMakerConfig.default]
  · have hrange : ¬((k : ℚ) / 100 < 1/100 ∨ 99/100 < (k : ℚ) / 100) := by
      push_neg
      constructor
      · rw [div_le_div_iff_of_pos_right (by norm_num)]
        exact_mod_cast hk1
      · rw [div_le_div_iff_of_pos_right (by norm_num)]
        exact_mod_cast hk99
    rw [MarketMakerBot.set_fair_price, if_neg hrange] at h
    have hb' : b'.fair_prices =
        storeFair b.fair_prices mid ((k : ℚ) / 100, roundQ 2 (1 - (k : ℚ) / 100)) := by
      injection h with h2
      rw [← h2]
    have hround : roundQ 2 (1 - (k : ℚ) / 100) = 1 - (k : ℚ) / 100 :=
      roundQ_eq_self 2 _ (100 - k) (by push_cast; ring)
    rw [MarketMakerBot.fair_pair, hb', storeFair_find]
    simp [hround]

/-- Witness for C9 at the default bot, market `"m"`, and 75 cents. -/
theorem C9_fair_price_sum_witness :
    (((MarketMakerBot.init MarketMakerConfig.default).fair_pair "m").1 +
        ((MarketMakerBot.init MarketMakerConfig.default).fair_pair "m").2 = 1) ∧
    ((MarketMakerBot.mk MarketMakerConfig.default []
        [("m", (((75 : ℤ) : ℚ) / 100, roundQ 2 (1 - ((75 : ℤ) : ℚ) / 100)))]).fair_pair "m").1 +
      ((MarketMakerBot.mk MarketMakerConfig.default []
        [("m", (((75 : ℤ) : ℚ) / 100, roundQ 2 (1 - ((75 : ℤ) : ℚ) / 100)))]).fair_pair "m").2 = 1 :=
  C9_fair_price_sum (MarketMakerBot.init MarketMakerConfig.default) "m" 75 (by norm_num)
    (by norm_num) _
    (by rw [MarketMakerBot.set_fair_price, if_neg (by push_cast; norm_num)]; rfl)

/-- C9 counterexample: `set_fair_price` accepts the YES price `0.111`, but
then stores `NO = round(1 - 0.111, 2) = 0.89`, and `0.111 + 0.89 = 1.001 ≠ 1`.
(The float run agrees: `round(1.0 - 0.111, 2)` is `0.89` and
`0.111 + 0.89` is `1.0009999999999999`.) -/
theorem C9_counterexample :
    (MarketMakerBot.init MarketMakerConfig.default).set_fair_price "m" (111/1000) =
      .ok (MarketMakerBot.mk MarketMakerConfig.default [] [("m", (111/1000, 89/100))]) ∧
    (MarketMakerBot.mk MarketMakerConfig.default []
        [("m", ((111/1000 : ℚ), (89/100 : ℚ)))]).fair_pair "m" = (111/1000, 89/100) ∧
    (111/1000 : ℚ) + 89/100 ≠ 1 := by
  refine ⟨?_, ?_, by norm_num⟩
  · rw [MarketMakerBot.set_fair_price, if_neg (by norm_num)]
    have hr : roundQ 2 (1 - (111/1000 : ℚ)) = 89/100 := by
      rw [roundQ_eq_up 2 _ 88 (by norm_num) (by norm_num) (by norm_num)]
      norm_num
    simp [MarketMakerBot.init, storeFair, hr]
  · simp [MarketMakerBot.fair_pair]

/-! ## C5: validation failures leave the engine untouched -/

/-- C5: a LIMIT order with no price, a LIMIT price outside `[0.01, 0.99]`,
or a non-positive quantity makes `process_order` fail with an error and
return the engine state unchanged: no books entry is created, nothing
rests, no trade happens.  (All three checks run before
`get_or_create_books`.) -/
theorem C5_validation_is_pure (e : MatchingEngine) (mid oid uid side action otype : String)
    (q : ℤ) (price : Option ℚ) (mm : Bool) (now : ℕ)
    (h : (otype = "LIMIT" ∧ price = none) ∨
         (otype = "LIMIT" ∧ ∃ p, price = some p ∧ (p < 1/100 ∨ 99/100 < p)) ∨
         q ≤ 0) :
    ∃ msg, e.process_order mid oid uid side action otype q price mm now = (.error msg, e) := by
  rcases h with ⟨ho, hp⟩ | ⟨ho, p, hp, hr⟩ | hq
  · rw [MatchingEngine.process_order, if_pos ⟨ho, hp⟩]
    exact ⟨_, rfl⟩
  · by_cases h1 : otype = "LIMIT" ∧ price = none
    · rw [MatchingEngine.process_order, if_pos h1]
      exact ⟨_, rfl⟩
    · rw [MatchingEngine.process_order, if_neg h1,
        if_pos ⟨ho, by rw [hp]; simpa using hr⟩]
      exact ⟨_, rfl⟩
  · by_cases h1 : otype = "LIMIT" ∧ price = none
    · rw [MatchingEngine.process_order, if_pos h1]
      exact ⟨_, rfl⟩
    · by_cases h2 : otype = "LIMIT" ∧ ((price.getD 0) < 1/100 ∨ 99/100 < (price.getD 0))
      · rw [MatchingEngine.process_order, if_neg h1, if_pos h2]
        exact ⟨_, rfl⟩
      · rw [MatchingEngine.process_order, if_neg h1, if_neg h2, if_pos hq]
        exact ⟨_, rfl⟩

/-- Witness for C5: a LIMIT order with no price on a fresh engine. -/
theorem C5_validation_is_pure_witness :
    ∃ msg, MatchingEngine.init.process_order "m" "o" "u" "YES" "BUY" "LIMIT" 5 none false 0 =
      (.error msg, MatchingEngine.init) :=
  C5_validation_is_pure MatchingEngine.init "m" "o" "u" "YES" "BUY" "LIMIT" 5 none false 0
    (Or.inl ⟨rfl, rfl⟩)

/-! ## Association-list facts for the books dictionary -/

/-- `pyUpper` on the two canonical side strings. -/
theorem pyUpper_YES : pyUpper "YES" = "YES" := by decide

/-- `pyUpper "NO"`. -/
theorem pyUpper_NO : pyUpper "NO" = "NO" := by decide

/-- A key absent from the dictionary differs from every stored key. -/
theorem lookupBooks_none_keys (l : List (String × MarketOrderBooks)) (mid : String)
    (h : lookupBooks l mid = none) : ∀ kv ∈ l, kv.1 ≠ mid := by
  induction l with
  | nil => intro kv hkv; cases hkv
  | cons e es ih =>
    intro kv hkv
    rw [lookupBooks] at h
    by_cases he : e.1 = mid
    · rw [if_pos he] at h; cases h
    · rw [if_neg he] at h
      rcases List.mem_cons.mp hkv with rfl | hkv
      · exact he
      · exact ih h kv hkv

/-- Writing the entry just appended for a previously-absent key. -/
theorem storeBooks_append_fresh (l : List (String × MarketOrderBooks)) (mid : String)
    (v w : MarketOrderBooks) (h : lookupBooks l mid = none) :
    storeBooks (l ++ [(mid, v)]) mid w = l ++ [(mid, w)] := by
  induction l with
  | nil => simp [storeBooks]
  | cons e es ih =>
    rw [lookupBooks] at h
    by_cases he : e.1 = mid
    · rw [if_pos he] at h; cases h
    · rw [if_neg he] at h
      simp only [List.cons_append, storeBooks, if_neg he, List.cons.injEq, true_and]
      exact ih h

/-! ## C10: invalid side strings -/

/-- C10 (amended): a `process_order` call with an unrecognised side whose
other inputs pass validation, and any `cancel_order` call with an
unrecognised side, raise `ValueError` — after `get_or_create_books` has
already inserted a fresh empty books entry for a previously-unreferenced
market, so the failing call mutates engine state.  (A `process_order` call
with an unrecognised side that also fails an earlier validation check
raises before creating the entry, see the counterexample.) -/
theorem C10_invalid_side_raises_after_create (e : MatchingEngine)
    (mid oid uid side action otype : String) (q : ℤ) (p : ℚ) (price : Option ℚ)
    (mm : Bool) (now : ℕ)
    (hside1 : pyUpper side ≠ "YES") (hside2 : pyUpper side ≠ "NO")
    (hvalid : (otype = "LIMIT" ∧ price = some p ∧ 1/100 ≤ p ∧ p ≤ 99/100) ∨ otype = "MARKET")
    (hq : 0 < q)
    (habs : lookupBooks e.books mid = none) :
    e.process_order mid oid uid side action otype q price mm now =
      (.error "Invalid side", { books := e.books ++ [(mid, MarketOrderBooks.init mid)] }) ∧
    e.cancel_order mid oid side action p =
      (.error "Invalid side", { books := e.books ++ [(mid, MarketOrderBooks.init mid)] }) := by
  have h1 : ¬(otype = "LIMIT" ∧ price = none) := by
    rcases hvalid with ⟨_, hp, _⟩ | ho
    · rintro ⟨_, hnone⟩
      rw [hp] at hnone
      cases hnone
    · rintro ⟨hlim, _⟩
      rw [ho] at hlim
      exact absurd hlim (by decide)
  have h2 : ¬(otype = "LIMIT" ∧ ((price.getD 0) < 1/100 ∨ 99/100 < (price.getD 0))) := by
    rcases hvalid with ⟨_, hp, hlo, hhi⟩ | ho
    · rintro ⟨_, hout⟩
      rw [hp] at hout
      simp only [Option.getD_some] at hout
      rcases hout with hout | hout
      · linarith
      · linarith
    · rintro ⟨hlim, _⟩
      rw [ho] at hlim
      exact absurd hlim (by decide)
  have h3 : ¬(q ≤ 0) := by omega
  constructor
  · rw [MatchingEngine.process_order, if_neg h1, if_neg h2, if_neg h3]
    simp only [MatchingEngine.get_or_create_books, habs]
    rw [MarketOrderBooks.get_book, if_neg hside1, if_neg hside2]
  · rw [MatchingEngine.cancel_order]
    simp only [MatchingEngine.get_or_create_books, habs]
    rw [MarketOrderBooks.get_book, if_neg hside1, if_neg hside2]

/-- C10 counterexample to the claim as stated: a `process_order` call with
an unrecognised side that also has a non-positive quantity raises the
quantity `ValueError` before `get_or_create_books` runs, so no books entry
is created and engine state is not mutated. -/
theorem C10_counterexample :
    pyUpper "MAYBE" ≠ "YES" ∧ pyUpper "MAYBE" ≠ "NO" ∧
    MatchingEngine.init.process_order "m" "o" "u" "MAYBE" "BUY" "LIMIT" 0
        (some (1/2)) false 0 =
      (.error "Quantity must be positive", MatchingEngine.init) ∧
    MatchingEngine.init.books = [] := by
  refine ⟨by decide, by decide, ?_, rfl⟩
  rw [MatchingEngine.process_order, if_neg (by simp), if_neg ?hr, if_pos (by norm_num)]
  case hr =>
    rintro ⟨_, hout⟩
    simp only [Option.getD_some] at hout
    rcases hout with hout | hout <;> norm_num at hout

/-- Witness for C10 at a fresh engine and the side string `"MAYBE"`. -/
theorem C10_invalid_side_witness :
    MatchingEngine.init.process_order "m" "o" "u" "MAYBE" "BUY" "LIMIT" 1
        (some (1/2)) false 0 =
      (.error "Invalid side", { books := [("m", MarketOrderBooks.init "m")] }) ∧
    MatchingEngine.init.cancel_order "m" "o" "MAYBE" "BUY" (1/2) =
      (.error "Invalid side", { books := [("m", MarketOrderBooks.init "m")] }) :=
  C10_invalid_side_raises_after_create MatchingEngine.init "m" "o" "u" "MAYBE" "BUY"
    "LIMIT" 1 (1/2) (some (1/2)) false 0 (by decide) (by decide)
    (Or.inl ⟨rfl, rfl, by norm_num, by norm_num⟩) (by norm_num) rfl

/-! ## C7: cancel on an unknown market -/

/-- C7 (amended): `cancel_order` on a market the engine holds no books for
is not a hard failure: like `process_order` and the snapshot, it lazily
creates an empty books entry, finds nothing to remove, and returns the
normal boolean result `false`. -/
theorem C7_cancel_unknown_market (e : MatchingEngine) (mid oid side action : String)
    (p : ℚ) (habs : lookupBooks e.books mid = none)
    (hside : pyUpper side = "YES" ∨ pyUpper side = "NO") :
    e.cancel_order mid oid side action p =
      (.ok false, { books := e.books ++ [(mid, MarketOrderBooks.init mid)] }) := by
  rw [MatchingEngine.cancel_order]
  simp only [MatchingEngine.get_or_create_books, habs]
  have hrm : ∀ bs : BookSide,
      (MarketOrderBooks.init mid).yes_book.remove_order oid p bs = (none, OrderBook.empty) := by
    intro bs
    cases bs <;> rfl
  rcases hside with hs | hs
  · rw [MarketOrderBooks.get_book, if_pos hs]
    by_cases ha : action = "BUY" <;>
      simp only [ha, if_pos, if_neg, reduceIte] <;>
      · show (Except.ok false,
            ({ books := storeBooks (e.books ++ [(mid, MarketOrderBooks.init mid)]) mid
                ((MarketOrderBooks.init mid).set_book side OrderBook.empty) } :
              MatchingEngine)) = _
        rw [MarketOrderBooks.set_book, if_pos hs]
        rw [show ({ MarketOrderBooks.init mid with yes_book := OrderBook.empty } :
              MarketOrderBooks) = MarketOrderBooks.init mid from rfl]
        rw [storeBooks_append_fresh e.books mid _ _ habs]
  · rw [MarketOrderBooks.get_book]
    by_cases hy : pyUpper side = "YES"
    · rw [if_pos hy]
      by_cases ha : action = "BUY" <;>
        simp only [ha, reduceIte] <;>
        · show (Except.ok false,
              ({ books := storeBooks (e.books ++ [(mid, MarketOrderBooks.init mid)]) mid
                  ((MarketOrderBooks.init mid).set_book side OrderBook.empty) } :
                MatchingEngine)) = _
          rw [MarketOrderBooks.set_book, if_pos hy]
          rw [show ({ MarketOrderBooks.init mid with yes_book := OrderBook.empty } :
                MarketOrderBooks) = MarketOrderBooks.init mid from rfl]
          rw [storeBooks_append_fresh e.books mid _ _ habs]
    · rw [if_neg hy, if_pos hs]
      by_cases ha : action = "BUY" <;>
        simp only [ha, reduceIte] <;>
        · show (Except.ok false,
              ({ books := storeBooks (e.books ++ [(mid, MarketOrderBooks.init mid)]) mid
                  ((MarketOrderBooks.init mid).set_book side OrderBook.empty) } :
                MatchingEngine)) = _
          rw [MarketOrderBooks.set_book, if_neg hy, if_pos hs]
          rw [show ({ MarketOrderBooks.init mid with no_book := OrderBook.empty } :
                MarketOrderBooks) = MarketOrderBooks.init mid from rfl]
          rw [storeBooks_append_fresh e.books mid _ _ habs]

/-- C7 counterexample to the claim as stated: cancelling on a fresh engine
(no books for market `"m"`) does not signal an error — it returns the
normal boolean result `false`, and lazily creates the books entry. -/
theorem C7_counterexample :
    MatchingEngine.init.cancel_order "m" "o1" "YES" "BUY" (1/2) =
      (.ok false, { books := [("m", MarketOrderBooks.init "m")] }) := by
  rw [MatchingEngine.cancel_order]
  simp only [MatchingEngine.get_or_create_books, MatchingEngine.init, lookupBooks]
  rw [MarketOrderBooks.get_book, if_pos pyUpper_YES]
  rfl

/-- Witness for C7 (amended) at a second concrete input: the NO side with a
SELL-side cancel. -/
theorem C7_cancel_unknown_market_witness :
    MatchingEngine.init.cancel_order "m2" "o9" "NO" "SELL" (1/4) =
      (.ok false, { books := [("m2", MarketOrderBooks.init "m2")] }) :=
  C7_cancel_unknown_market MatchingEngine.init "m2" "o9" "NO" "SELL" (1/4) rfl
    (Or.inr (by decide))

/-! ## C6: the market maker's own position rows -/

/-- C6: a trade whose buyer is `MARKET_MAKER_BOT` makes
`process_trade_for_positions` create and update a `Position` row for the
bot, contrary to the claimed exemption (and to the caller's own comment
"this function skips market maker internally"): the bot row appears with
the bought shares.  Input: the only existing row is the seller's
(`"alice"`, 10 YES shares at average 0.50); the trade is 10 YES at 0.50
with the bot buying. -/
theorem C6_bot_position_created :
    (process_trade_for_positions
        [{ user_id := "alice", market_id := "m", yes_shares := 10, no_shares := 0,
           yes_avg_price := 1/2, no_avg_price := 0, yes_cost_basis := 5,
           no_cost_basis := 0, realized_pnl := 0 }]
        "YES" 10 (1/2) "MARKET_MAKER_BOT" "alice" "m").map
      (fun ps => ps.map fun p => (p.user_id, p.yes_shares)) =
    .ok [("alice", 0), ("MARKET_MAKER_BOT", 10)] := by
  simp [process_trade_for_positions, get_or_create_position, freshPosition,
    update_position_for_buy, update_position_for_sell, storePosition, List.find?,
    Except.map]

/-! ## Trade provenance: C2 and C3 -/

/-- The identifying fields (id, owner, price) of the resting orders of a
list; a partial fill changes only a resting order's quantity, never these. -/
def tradeKeys (os : List BookOrder) : List (String × String × ℚ) :=
  os.map fun o => (o.order_id, o.user_id, o.price)

/-- `tradeKeys` of all orders resting across a list of levels. -/
def levelTradeKeys (lvls : List PriceLevel) : List (String × String × ℚ) :=
  (lvls.map fun l => tradeKeys l.orders).flatten

/-- How a trade produced by `_match_order` relates to the resting order it
filled against: the resting owner differs from the incoming user, the
execution price is the resting order's price, the total is that price times
the fill quantity rounded to 4 digits, and buyer/seller are attributed by
the incoming action. -/
def tradeMatches (oid uid action : String) (k : String × String × ℚ)
    (t : TradeResult) : Prop :=
  k.2.1 ≠ uid ∧ t.price = k.2.2 ∧ t.total = roundQ 4 (k.2.2 * t.quantity) ∧
    (if action = "BUY"
      then t.buyer_order_id = oid ∧ t.buyer_user_id = uid ∧
           t.seller_order_id = k.1 ∧ t.seller_user_id = k.2.1
      else t.seller_order_id = oid ∧ t.seller_user_id = uid ∧
           t.buyer_order_id = k.1 ∧ t.buyer_user_id = k.2.1)

/-- Every trade the inner walk appends comes from one of the level's
resting orders and relates to it by `tradeMatches`. -/
theorem matchInner_trades (mid oid uid side action : String) (now : ℕ)
    (os : List BookOrder) : ∀ (r : ℕ) (ts : List TradeResult),
    ∃ Δ, (matchInner mid oid uid side action now os r ts).2.2 = ts ++ Δ ∧
      ∀ t ∈ Δ, ∃ k ∈ tradeKeys os, tradeMatches oid uid action k t := by
  induction os with
  | nil =>
    intro r ts
    exact ⟨[], by simp [matchInner], by simp⟩
  | cons o rest ih =>
    intro r ts
    by_cases hr : r = 0
    · exact ⟨[], by simp [matchInner, hr], by simp⟩
    · by_cases hu : o.user_id = uid
      · obtain ⟨Δ, hΔ, hk⟩ := ih r ts
        refine ⟨Δ, ?_, ?_⟩
        · rw [matchInner, if_neg hr, if_pos hu]
          exact hΔ
        · intro t ht
          obtain ⟨k, hkmem, hkm⟩ := hk t ht
          exact ⟨k, List.mem_cons_of_mem _ hkmem, hkm⟩
      · set fill := min r o.quantity with hfill
        have htm : tradeMatches oid uid action (o.order_id, o.user_id, o.price)
            (mkTrade mid oid uid side action now o fill) := by
          refine ⟨hu, rfl, rfl, ?_⟩
          by_cases ha : action = "BUY" <;> simp [mkTrade, ha]
        by_cases hq : o.quantity - fill = 0
        · obtain ⟨Δ, hΔ, hk⟩ := ih (r - fill) (ts ++ [mkTrade mid oid uid side action now o fill])
          refine ⟨mkTrade mid oid uid side action now o fill :: Δ, ?_, ?_⟩
          · rw [matchInner, if_neg hr, if_neg hu]
            simp only [← hfill, if_pos hq]
            rw [hΔ, List.append_assoc]
            rfl
          · intro t ht
            rcases List.mem_cons.mp ht with rfl | ht
            · exact ⟨(o.order_id, o.user_id, o.price), List.mem_cons_self _ _, htm⟩
            · obtain ⟨k, hkmem, hkm⟩ := hk t ht
              exact ⟨k, List.mem_cons_of_mem _ hkmem, hkm⟩
        · refine ⟨[mkTrade mid oid uid side action now o fill], ?_, ?_⟩
          · rw [matchInner, if_neg hr, if_neg hu]
            simp only [← hfill, if_neg hq]
          · intro t ht
            rcases List.mem_singleton.mp ht with rfl
            exact ⟨(o.order_id, o.user_id, o.price), List.mem_cons_self _ _, htm⟩

/-- Every trade the outer loop appends comes from an order resting at one
of the walked levels. -/
theorem matchOuter_trades (mid oid uid side action otype : String)
    (price : Option ℚ) (now : ℕ) (lvls : List PriceLevel) :
    ∀ (r : ℕ) (ts : List TradeResult),
    ∃ Δ, (matchOuter mid oid uid side action otype price now lvls r ts).1 = ts ++ Δ ∧
      ∀ t ∈ Δ, ∃ k ∈ levelTradeKeys lvls, tradeMatches oid uid action k t := by
  induction lvls with
  | nil =>
    intro r ts
    refine ⟨[], ?_, by simp⟩
    rw [matchOuter]
    by_cases hr : r = 0 <;> simp [hr]
  | cons lvl rest ih =>
    intro r ts
    by_cases hr : r = 0
    · refine ⟨[], ?_, by simp⟩
      rw [matchOuter]
      simp [hr]
    · by_cases hacc : priceAcceptable otype action price lvl.price = false
      · refine ⟨[], ?_, by simp⟩
        rw [matchOuter]
        simp [hr, hacc]
      · obtain ⟨Δ₁, hΔ₁, hk₁⟩ := matchInner_trades mid oid uid side action now lvl.orders r ts
        have hsub₁ : ∀ t ∈ Δ₁, ∃ k ∈ levelTradeKeys (lvl :: rest),
            tradeMatches oid uid action k t := by
          intro t ht
          obtain ⟨k, hkmem, hkm⟩ := hk₁ t ht
          refine ⟨k, ?_, hkm⟩
          simp only [levelTradeKeys, List.map_cons, List.flatten_cons, List.mem_append]
          exact Or.inl hkmem
        by_cases hemp : (matchInner mid oid uid side action now lvl.orders r ts).1 = []
        · obtain ⟨Δ₂, hΔ₂, hk₂⟩ := ih
            (matchInner mid oid uid side action now lvl.orders r ts).2.1
            (matchInner mid oid uid side action now lvl.orders r ts).2.2
          refine ⟨Δ₁ ++ Δ₂, ?_, ?_⟩
          · rw [matchOuter]
            simp only [hr, hacc, if_false, hemp, if_true, reduceIte]
            rw [if_neg (by simp), hΔ₂, hΔ₁, List.append_assoc]
          · intro t ht
            rcases List.mem_append.mp ht with ht | ht
            · exact hsub₁ t ht
            · obtain ⟨k, hkmem, hkm⟩ := hk₂ t ht
              refine ⟨k, ?_, hkm⟩
              simp only [levelTradeKeys, List.map_cons, List.flatten_cons, List.mem_append]
              exact Or.inr hkmem
        · refine ⟨Δ₁, ?_, hsub₁⟩
          rw [matchOuter]
          simp only [hr, hacc, if_false, hemp, reduceIte]
          rw [if_neg (by simp)]
          exact hΔ₁

/-- The levels of the opposing side as they stand when matching begins
(after the books are resolved, before any fill): BUY walks the asks, SELL
walks the bids. -/
def preOppositeLevels (e : MatchingEngine) (mid side action : String) :
    List PriceLevel :=
  match ((e.get_or_create_books mid).1).get_book side with
  | .ok b => if action = "BUY" then b.asks else b.bids
  | .error _ => []

/-- Every trade of a completed `process_order` call comes from an order
that was resting on the opposing side when the call began, and relates to
it by `tradeMatches`. -/
theorem process_order_trades_from_book (e : MatchingEngine)
    (mid oid uid side action otype : String) (q : ℤ) (price : Option ℚ)
    (mm : Bool) (now : ℕ) (res : MatchResult) (e' : MatchingEngine)
    (h : e.process_order mid oid uid side action otype q price mm now = (.ok res, e')) :
    ∀ t ∈ res.trades, ∃ k ∈ levelTradeKeys (preOppositeLevels e mid side action),
      tradeMatches oid uid action k t := by
  simp only [MatchingEngine.process_order] at h
  by_cases h1 : otype = "LIMIT" ∧ price = none
  · rw [if_pos h1] at h
    simp at h
  rw [if_neg h1] at h
  by_cases h2 : otype = "LIMIT" ∧ ((price.getD 0) < 1/100 ∨ 99/100 < (price.getD 0))
  · rw [if_pos h2] at h
    simp at h
  rw [if_neg h2] at h
  by_cases h3 : q ≤ 0
  · rw [if_pos h3] at h
    simp at h
  rw [if_neg h3] at h
  cases hgb : ((e.get_or_create_books mid).1).get_book side with
    | error msg => rw [hgb] at h; simp at h
    | ok book =>
      rw [hgb] at h
      simp only [] at h
      have hfst := congrArg Prod.fst h
      simp only [] at hfst
      injection hfst with hres
      have htr : res.trades =
          (matchOrderOnBook book mid oid uid side action otype q.toNat price now).1 := by
        rw [← hres]
        rfl
      have hpre : preOppositeLevels e mid side action =
          (if action = "BUY" then book.asks else book.bids) := by
        rw [preOppositeLevels, hgb]
      by_cases hb : action = "BUY"
      · obtain ⟨Δ, hΔ, hk⟩ := matchOuter_trades mid oid uid side action otype price now
          book.asks q.toNat []
        intro t ht
        rw [htr] at ht
        rw [matchOrderOnBook, if_pos hb] at ht
        simp only [] at ht
        rw [hΔ, List.nil_append] at ht
        rw [hpre, if_pos hb]
        exact hk t ht
      · obtain ⟨Δ, hΔ, hk⟩ := matchOuter_trades mid oid uid side action otype price now
          book.bids q.toNat []
        intro t ht
        rw [htr] at ht
        rw [matchOrderOnBook, if_neg hb] at ht
        simp only [] at ht
        rw [hΔ, List.nil_append] at ht
        rw [hpre, if_neg hb]
        exact hk t ht

/-- C3: (1) when the head resting order of the best opposing level belongs
to the incoming order's user and quantity remains, the inner walk removes
it and continues with the next resting order at the same level, producing
no trade and leaving remaining quantity and the accumulated trades
untouched; (2) consequently, no trade returned by any completed
`process_order` call has its buyer user id equal to its seller user id. -/
theorem C3_self_trade_prevention :
    (∀ (mid oid uid side action : String) (now : ℕ) (o : BookOrder)
       (os : List BookOrder) (r : ℕ) (ts : List TradeResult),
       o.user_id = uid → r ≠ 0 →
       matchInner mid oid uid side action now (o :: os) r ts =
         matchInner mid oid uid side action now os r ts) ∧
    (∀ (e : MatchingEngine) (mid oid uid side action otype : String) (q : ℤ)
       (price : Option ℚ) (mm : Bool) (now : ℕ) (res : MatchResult)
       (e' : MatchingEngine),
       e.process_order mid oid uid side action otype q price mm now = (.ok res, e') →
       ∀ t ∈ res.trades, t.buyer_user_id ≠ t.seller_user_id) := by
  constructor
  · intro mid oid uid side action now o os r ts hu hr
    rw [matchInner, if_neg hr, if_pos hu]
  · intro e mid oid uid side action otype q price mm now res e' h t ht
    obtain ⟨k, _, hne, _, _, hattr⟩ :=
      process_order_trades_from_book e mid oid uid side action otype q price mm now
        res e' h t ht
    by_cases hb : action = "BUY"
    · rw [if_pos hb] at hattr
      rw [hattr.2.1, hattr.2.2.2]
      exact fun hc => hne hc.symm
    · rw [if_neg hb] at hattr
      rw [hattr.2.2.2, hattr.2.1]
      exact hne

/-- C2 (amended): for every trade of a completed `process_order` call there
is an order that was resting on the opposing side when the call began whose
identifier and owner are recorded as the trade's counterparty and whose
price is the trade's execution price — the incoming order's own limit price
never sets it — and the trade's total is that price times the fill
quantity rounded to 4 decimal digits (so exactly price × quantity whenever
that product has at most 4 decimal digits, e.g. for cent prices, but not in
general: see the counterexample). -/
theorem C2_execution_price_from_resting (e : MatchingEngine)
    (mid oid uid side action otype : String) (q : ℤ) (price : Option ℚ)
    (mm : Bool) (now : ℕ) (res : MatchResult) (e' : MatchingEngine)
    (h : e.process_order mid oid uid side action otype q price mm now = (.ok res, e')) :
    ∀ t ∈ res.trades, ∃ k ∈ levelTradeKeys (preOppositeLevels e mid side action),
      t.price = k.2.2 ∧ t.total = roundQ 4 (t.price * t.quantity) ∧
      (if action = "BUY" then t.seller_order_id = k.1 ∧ t.seller_user_id = k.2.1
       else t.buyer_order_id = k.1 ∧ t.buyer_user_id = k.2.1) := by
  intro t ht
  obtain ⟨k, hkmem, _, hprice, htotal, hattr⟩ :=
    process_order_trades_from_book e mid oid uid side action otype q price mm now
      res e' h t ht
  refine ⟨k, hkmem, hprice, by rw [hprice]; exact htotal, ?_⟩
  by_cases hb : action = "BUY"
  · rw [if_pos hb] at hattr ⊢
    exact ⟨hattr.2.2.1, hattr.2.2.2⟩
  · rw [if_neg hb] at hattr ⊢
    exact ⟨hattr.2.2.1, hattr.2.2.2⟩

/-- C2 counterexample to the claim as stated: a resting SELL at the
accepted (non-cent) limit price `0.123456` filled by a BUY produces a trade
whose price is the resting price but whose `total` is
`round(0.123456 * 1, 4) = 0.1235 ≠ price × quantity`.  (The float run
agrees: `round(0.123456, 4)` is `0.1235`.) -/
theorem C2_counterexample :
    ((((MatchingEngine.init.process_order "m" "s1" "alice" "YES" "SELL" "LIMIT" 1
          (some (123456/1000000)) false 0).2).process_order "m" "b1" "bob" "YES" "BUY"
          "LIMIT" 1 (some (99/100)) false 1).1).map
        (fun res => res.trades.map fun t => (t.price, t.quantity, t.total)) =
      .ok [((123456/1000000 : ℚ), 1, (1235/10000 : ℚ))] ∧
    (1235/10000 : ℚ) ≠ (123456/1000000 : ℚ) * 1 := by
  constructor
  · have h1 : (MatchingEngine.init.process_order "m" "s1" "alice" "YES" "SELL" "LIMIT" 1
        (some (123456/1000000)) false 0).2 =
        { books := [("m",
          { market_id := "m",
            yes_book :=
              { bids := [],
                asks := [{ price := 123456/1000000,
                           orders := [{ order_id := "s1", user_id := "alice",
                                        price := 123456/1000000, quantity := 1,
                                        timestamp := 0, is_market_maker := false }] }] },
            no_book := OrderBook.empty })] } := by
      norm_num [MatchingEngine.process_order, MatchingEngine.get_or_create_books, lookupBooks,
        MatchingEngine.init, MarketOrderBooks.get_book, MarketOrderBooks.init, pyUpper_YES,
        bookSubmit, matchOrderOnBook, matchOuter, OrderBook.empty, OrderBook.add_order, sideAddOrder,
        PriceLevel.add_order, insortRight, MarketOrderBooks.set_book, storeBooks,
        String.reduceEq, reduceIte, reduceCtorEq]
      simp
    rw [h1]
    have hround : roundQ 4 ((1929:ℚ)/15625) = 247/2000 := by
      rw [roundQ_eq_up 4 _ 1234 (by norm_num) (by norm_num) (by norm_num)]
      norm_num
    norm_num [MatchingEngine.process_order, MatchingEngine.get_or_create_books, lookupBooks,
      MarketOrderBooks.get_book, MarketOrderBooks.init, pyUpper_YES,
      bookSubmit, matchOrderOnBook, matchOuter, matchInner, mkTrade, priceAcceptable,
      OrderBook.empty, OrderBook.add_order, sideAddOrder,
      PriceLevel.add_order, insortRight, MarketOrderBooks.set_book, storeBooks,
      Except.map, hround, String.reduceEq, reduceIte, reduceCtorEq]
    simp [hround, Except.map]
  · norm_num

/-- Witness for C2 (amended) at spec scenario B: resting SELL 10 YES at
0.40 by `"alice"`, incoming BUY LIMIT 10 YES at 0.45 by `"bob"` — one trade
at the resting price 0.40, total 4.00. -/
theorem C2_execution_price_from_resting_witness :
    (∀ t ∈ ({ order_id := "b1",
              trades := [{ trade_id := "", market_id := "m", side := "YES",
                           buyer_order_id := "b1", seller_order_id := "s1",
                           buyer_user_id := "bob", seller_user_id := "alice",
                           price := 2/5, quantity := 10, total := 4,
                           executed_at := 1 }],
              filled_quantity := 10, remaining_quantity := 0,
              added_to_book := false } : MatchResult).trades,
      ∃ k ∈ levelTradeKeys (preOppositeLevels
          { books := [("m",
            { market_id := "m",
              yes_book :=
                { bids := [],
                  asks := [{ price := 2/5,
                             orders := [{ order_id := "s1", user_id := "alice",
                                          price := 2/5, quantity := 10,
                                          timestamp := 0, is_market_maker := false }] }] },
              no_book := OrderBook.empty })] } "m" "YES" "BUY"),
        t.price = k.2.2 ∧ t.total = roundQ 4 (t.price * t.quantity) ∧
        (if "BUY" = "BUY" then t.seller_order_id = k.1 ∧ t.seller_user_id = k.2.1
         else t.buyer_order_id = k.1 ∧ t.buyer_user_id = k.2.1)) ∧
    ({ order_id := "b1",
       trades := [{ trade_id := "", market_id := "m", side := "YES",
                    buyer_order_id := "b1", seller_order_id := "s1",
                    buyer_user_id := "bob", seller_user_id := "alice",
                    price := 2/5, quantity := 10, total := 4,
                    executed_at := 1 }],
       filled_quantity := 10, remaining_quantity := 0,
       added_to_book := false } : MatchResult).trades.length = 1 :=
  ⟨C2_execution_price_from_resting
    { books := [("m",
      { market_id := "m",
        yes_book :=
          { bids := [],
            asks := [{ price := 2/5,
                       orders := [{ order_id := "s1", user_id := "alice",
                                    price := 2/5, quantity := 10,
                                    timestamp := 0, is_market_maker := false }] }] },
        no_book := OrderBook.empty })] }
    "m" "b1" "bob" "YES" "BUY" "LIMIT" 10 (some (9/20)) false 1
    { order_id := "b1",
      trades := [{ trade_id := "", market_id := "m", side := "YES",
                   buyer_order_id := "b1", seller_order_id := "s1",
                   buyer_user_id := "bob", seller_user_id := "alice",
                   price := 2/5, quantity := 10, total := 4,
                   executed_at := 1 }],
      filled_quantity := 10, remaining_quantity := 0, added_to_book := false }
    { books := [("m",
      { market_id := "m",
        yes_book := { bids := [], asks := [] },
        no_book := OrderBook.empty })] }
    (by
      have hround : roundQ 4 ((2:ℚ)/5 * ((10:ℕ):ℚ)) = 4 := by
        rw [roundQ_eq_self 4 _ 40000 (by push_cast; norm_num)]
        push_cast
        norm_num
      have hround2 : roundQ 4 ((2:ℚ)/5 * 10) = 4 := by
        rw [roundQ_eq_self 4 _ 40000 (by norm_num)]
        norm_num
      have hround3 : roundQ 4 (4:ℚ) = 4 := roundQ_eq_self 4 _ 40000 (by norm_num)
      norm_num [MatchingEngine.process_order, MatchingEngine.get_or_create_books, lookupBooks,
        MarketOrderBooks.get_book, MarketOrderBooks.init, pyUpper_YES,
        bookSubmit, matchOrderOnBook, matchOuter, matchInner, mkTrade, priceAcceptable,
        OrderBook.empty, OrderBook.add_order, sideAddOrder,
        PriceLevel.add_order, insortRight, MarketOrderBooks.set_book, storeBooks,
        hround, hround2, hround3, String.reduceEq, reduceIte, reduceCtorEq]
      simp [hround, hround2, hround3]), rfl⟩

/-! ## C4: settlement conservation -/

/-- A money amount representable with 4 decimal digits.  Every cost basis
and realized P&L the position ledger stores is rounded to 4 digits, so
positions reaching settlement satisfy this. -/
def Mul4 (q : ℚ) : Prop := ∃ z : ℤ, q = z / 10000

/-- The winning-side share count of a position. -/
def winningSharesOf (winning_side : String) (p : Position) : ℕ :=
  if winning_side = "YES" then p.yes_shares else p.no_shares

/-- The settlement P&L `(payout - winning cost) + (0 - losing cost)` of
`settle_position`, at full precision. -/
def settlePnl (winning_side : String) (p : Position) : ℚ :=
  ((winningSharesOf winning_side p : ℚ) * 1 -
      (if winning_side = "YES" then p.yes_cost_basis else p.no_cost_basis)) +
    (0 - (if winning_side = "YES" then p.no_cost_basis else p.yes_cost_basis))

/-- How `resolve_market` transforms each position row: rows of the market
with shares on either side are zeroed with their realized P&L increased by
exactly the settlement P&L (never reset); every other row is untouched. -/
def settledRelation (winning_side mid : String) (p p' : Position) : Prop :=
  if p.market_id = mid ∧ ¬(p.yes_shares = 0 ∧ p.no_shares = 0) then
    p'.yes_shares = 0 ∧ p'.no_shares = 0 ∧
    p'.yes_cost_basis = 0 ∧ p'.no_cost_basis = 0 ∧
    p'.realized_pnl = p.realized_pnl + settlePnl winning_side p
  else p' = p

/-- What `settle_position` does to one 4-digit position: the payout is
exactly the winning share count, the shares and cost bases are zeroed, and
the realized P&L grows by exactly the settlement P&L (the `round(..., 4)`
is the identity on these values). -/
theorem settle_position_ok (p : Position) (w : String) (us : UserTable)
    (r : SettlementResult) (p' : Position) (us' : UserTable)
    (hm : Mul4 p.yes_cost_basis ∧ Mul4 p.no_cost_basis ∧ Mul4 p.realized_pnl)
    (h : settle_position p w us = .ok (r, p', us')) :
    r.payout = (winningSharesOf w p : ℚ) ∧
    p'.yes_shares = 0 ∧ p'.no_shares = 0 ∧
    p'.yes_cost_basis = 0 ∧ p'.no_cost_basis = 0 ∧
    p'.realized_pnl = p.realized_pnl + settlePnl w p := by
  obtain ⟨⟨zy, hzy⟩, ⟨zn, hzn⟩, ⟨zr, hzr⟩⟩ := hm
  simp only [settle_position] at h
  cases hu : lookupUser us p.user_id with
  | none => rw [hu] at h; cases h
  | some bal =>
    rw [hu] at h
    injection h with h
    rw [Prod.mk.injEq] at h
    obtain ⟨h1, h2⟩ := h
    rw [Prod.mk.injEq] at h2
    obtain ⟨h2, h3⟩ := h2
    have hpay : r.payout =
        roundQ 4 (((if w = "YES" then p.yes_shares else p.no_shares : ℕ) : ℚ) * 1) := by
      rw [← h1]
    have hzero : p'.yes_shares = 0 ∧ p'.no_shares = 0 ∧
        p'.yes_cost_basis = 0 ∧ p'.no_cost_basis = 0 := by
      rw [← h2]
      exact ⟨rfl, rfl, rfl, rfl⟩
    have hrz : p'.realized_pnl = roundQ 4 (p.realized_pnl +
        ((((if w = "YES" then p.yes_shares else p.no_shares : ℕ) : ℚ) * 1 -
            (if w = "YES" then p.yes_cost_basis else p.no_cost_basis)) +
          (0 - (if w = "YES" then p.no_cost_basis else p.yes_cost_basis)))) := by
      rw [← h2]
    refine ⟨?_, hzero.1, hzero.2.1, hzero.2.2.1, hzero.2.2.2, ?_⟩
    · rw [hpay, winningSharesOf, mul_one]
      apply roundQ_eq_self 4 _ (((if w = "YES" then p.yes_shares else p.no_shares : ℕ) : ℤ) * 10000)
      push_cast
      ring
    · rw [hrz, settlePnl, winningSharesOf]
      by_cases hw : w = "YES"
      · simp only [if_pos hw]
        rw [hzy, hzn, hzr]
        apply roundQ_eq_self 4 _ (zr + (p.yes_shares : ℤ) * 10000 - zy - zn)
        push_cast
        ring
      · simp only [if_neg hw]
        rw [hzy, hzn, hzr]
        apply roundQ_eq_self 4 _ (zr + (p.no_shares : ℤ) * 10000 - zn - zy)
        push_cast
        ring

/-- What the settlement loop does over the whole position table: each row
is related to its successor by `settledRelation`, and the accumulated
payout is exactly the sum of winning-side shares over the settled rows. -/
theorem settleLoop_ok (mid w : String) (ps : List Position) :
    ∀ (us : UserTable) (ps' : List Position) (us' : UserTable)
      (rs : List SettlementResult) (tot : ℚ),
    (∀ p ∈ ps, Mul4 p.yes_cost_basis ∧ Mul4 p.no_cost_basis ∧ Mul4 p.realized_pnl) →
    settleLoop mid w ps us = .ok (ps', us', rs, tot) →
    List.Forall₂ (settledRelation w mid) ps ps' ∧
    tot = ((ps.filter fun p =>
        p.market_id = mid ∧ ¬(p.yes_shares = 0 ∧ p.no_shares = 0)).map
      fun p => ((winningSharesOf w p : ℕ) : ℚ)).sum := by
  induction ps with
  | nil =>
    intro us ps' us' rs tot _ h
    rw [settleLoop] at h
    injection h with h
    rw [Prod.mk.injEq] at h
    obtain ⟨h1, h2⟩ := h
    rw [Prod.mk.injEq] at h2
    obtain ⟨h2, h3⟩ := h2
    rw [Prod.mk.injEq] at h3
    obtain ⟨h3, h4⟩ := h3
    subst h1 h4
    exact ⟨List.Forall₂.nil, by simp⟩
  | cons p psr ih =>
    intro us ps' us' rs tot hm h
    have hmp := hm p (List.mem_cons_self p psr)
    have hmr : ∀ q ∈ psr, Mul4 q.yes_cost_basis ∧ Mul4 q.no_cost_basis ∧
        Mul4 q.realized_pnl := fun q hq => hm q (List.mem_cons_of_mem p hq)
    rw [settleLoop] at h
    by_cases hc : p.market_id = mid ∧ ¬(p.yes_shares = 0 ∧ p.no_shares = 0)
    · rw [if_pos hc] at h
      cases hsp : settle_position p w us with
      | error msg =>
        simp only [hsp] at h
        exact Except.noConfusion h
      | ok r0 =>
        simp only [hsp] at h
        cases hsl : settleLoop mid w psr r0.2.2 with
        | error msg =>
          simp only [hsl] at h
          exact Except.noConfusion h
        | ok rest =>
          simp only [hsl] at h
          injection h with h
          rw [Prod.mk.injEq] at h
          obtain ⟨h1, h2⟩ := h
          rw [Prod.mk.injEq] at h2
          obtain ⟨h2, h3⟩ := h2
          rw [Prod.mk.injEq] at h3
          obtain ⟨h3, h4⟩ := h3
          obtain ⟨hF, htot⟩ := ih r0.2.2 rest.1 rest.2.1 rest.2.2.1 rest.2.2.2 hmr
            (by rw [hsl])
          obtain ⟨hpayout, hz1, hz2, hz3, hz4, hrz⟩ :=
            settle_position_ok p w us r0.1 r0.2.1 r0.2.2 hmp (by rw [hsp])
          constructor
          · rw [← h1]
            refine List.Forall₂.cons ?_ hF
            rw [settledRelation, if_pos hc]
            exact ⟨hz1, hz2, hz3, hz4, hrz⟩
          · rw [← h4, List.filter_cons_of_pos (by simp only [decide_eq_true_eq]; exact hc), List.map_cons,
              List.sum_cons, hpayout, htot]
    · rw [if_neg hc] at h
      cases hsl : settleLoop mid w psr us with
      | error msg =>
        simp only [hsl] at h
        exact Except.noConfusion h
      | ok rest =>
        simp only [hsl] at h
        injection h with h
        rw [Prod.mk.injEq] at h
        obtain ⟨h1, h2⟩ := h
        rw [Prod.mk.injEq] at h2
        obtain ⟨h2, h3⟩ := h2
        rw [Prod.mk.injEq] at h3
        obtain ⟨h3, h4⟩ := h3
        obtain ⟨hF, htot⟩ := ih us rest.1 rest.2.1 rest.2.2.1 rest.2.2.2 hmr
          (by rw [hsl])
        constructor
        · rw [← h1]
          refine List.Forall₂.cons ?_ hF
          rw [settledRelation, if_neg hc]
        · rw [← h4, List.filter_cons_of_neg (by simp only [decide_eq_true_eq]; exact hc), htot]

/-- C4: a successful `resolve_market` call (market known, not yet resolved,
all settled users found) on a 4-decimal-digit position table returns
`total_payout` equal exactly to the sum over the market's positions with
nonzero shares of winning-side shares × 1.00, and transforms the position
table pointwise: settled rows end with both sides' shares and cost bases
zero and realized P&L increased by exactly
`(payout − winning cost basis) + (0 − losing cost basis)`; all other rows
are untouched (realized P&L is never reset). -/
theorem C4_settlement_conservation (ms : MarketTable) (ps : List Position)
    (us : UserTable) (mid : String) (outcome : Bool)
    (summary : MarketSettlementSummary) (ps' : List Position) (us' : UserTable)
    (ms' : MarketTable)
    (hm : ∀ p ∈ ps, Mul4 p.yes_cost_basis ∧ Mul4 p.no_cost_basis ∧ Mul4 p.realized_pnl)
    (h : resolve_market ms ps us mid outcome = .ok (summary, ps', us', ms')) :
    summary.total_payout = ((ps.filter fun p =>
        p.market_id = mid ∧ ¬(p.yes_shares = 0 ∧ p.no_shares = 0)).map
      fun p => ((winningSharesOf (if outcome then "YES" else "NO") p : ℕ) : ℚ)).sum ∧
    List.Forall₂ (settledRelation (if outcome then "YES" else "NO") mid) ps ps' := by
  rw [resolve_market] at h
  cases hfind : (ms.find? fun m => m.1 = mid).map Prod.snd with
  | none =>
    simp only [hfind] at h
    exact Except.noConfusion h
  | some st =>
    simp only [hfind] at h
    by_cases hst : st = MarketStatus.RESOLVED
    · rw [if_pos hst] at h
      cases h
    · rw [if_neg hst] at h
      cases hsl : settleLoop mid (if outcome then "YES" else "NO") ps us with
      | error msg =>
        simp only [hsl] at h
        exact Except.noConfusion h
      | ok rest =>
        simp only [hsl] at h
        injection h with h
        rw [Prod.mk.injEq] at h
        obtain ⟨h1, h2⟩ := h
        rw [Prod.mk.injEq] at h2
        obtain ⟨h2, h3⟩ := h2
        obtain ⟨hF, htot⟩ := settleLoop_ok mid (if outcome then "YES" else "NO") ps us
          rest.1 rest.2.1 rest.2.2.1 rest.2.2.2 hm (by rw [hsl])
        constructor
        · have hsum : summary.total_payout = roundQ 4 rest.2.2.2 := by rw [← h1]
          rw [hsum, htot]
          have hcast : ((ps.filter fun p =>
              p.market_id = mid ∧ ¬(p.yes_shares = 0 ∧ p.no_shares = 0)).map
            fun p => ((winningSharesOf (if outcome then "YES" else "NO") p : ℕ) : ℚ)).sum =
              ((((ps.filter fun p =>
                  p.market_id = mid ∧ ¬(p.yes_shares = 0 ∧ p.no_shares = 0)).map
                fun p => winningSharesOf (if outcome then "YES" else "NO") p).sum : ℕ) : ℚ) := by
            rw [Nat.cast_list_sum, List.map_map]
            rfl
          rw [hcast]
          refine roundQ_eq_self 4 _
            ((((ps.filter fun p =>
                p.market_id = mid ∧ ¬(p.yes_shares = 0 ∧ p.no_shares = 0)).map
              fun p => winningSharesOf (if outcome then "YES" else "NO") p).sum : ℤ) * 10000) ?_
          rw [Int.cast_mul, Int.cast_natCast]
          norm_num
        · rw [← h2]
          exact hF

/-- Witness for C4 at spec scenario D: one position holding 10 YES (cost
4.00) and 5 NO (cost 2.50); the market resolves YES; payout 10.00 and
realized P&L `(10 − 4) + (0 − 2.5) = 3.5`. -/
theorem C4_settlement_conservation_witness :
    ({ market_id := "m", outcome := "YES", total_payout := 10,
       positions_settled := 1,
       results := [{ user_id := "alice", market_id := "m", winning_shares := 10,
                     losing_shares := 5, payout := 10, winning_cost_basis := 4,
                     losing_cost_basis := 5/2, profit_loss := 7/2,
                     new_balance := 10 }] } : MarketSettlementSummary).total_payout =
      ((([{ user_id := "alice", market_id := "m", yes_shares := 10, no_shares := 5,
            yes_avg_price := 2/5, no_avg_price := 1/2, yes_cost_basis := 4,
            no_cost_basis := 5/2, realized_pnl := 0 }] : List Position).filter fun p =>
          p.market_id = "m" ∧ ¬(p.yes_shares = 0 ∧ p.no_shares = 0)).map
        fun p => ((winningSharesOf (if true then "YES" else "NO") p : ℕ) : ℚ)).sum ∧
    List.Forall₂ (settledRelation (if true then "YES" else "NO") "m")
      [{ user_id := "alice", market_id := "m", yes_shares := 10, no_shares := 5,
         yes_avg_price := 2/5, no_avg_price := 1/2, yes_cost_basis := 4,
         no_cost_basis := 5/2, realized_pnl := 0 }]
      [{ user_id := "alice", market_id := "m", yes_shares := 0, no_shares := 0,
         yes_avg_price := 2/5, no_avg_price := 1/2, yes_cost_basis := 0,
         no_cost_basis := 0, realized_pnl := 7/2 }] :=
  C4_settlement_conservation [("m", MarketStatus.OPEN)]
    [{ user_id := "alice", market_id := "m", yes_shares := 10, no_shares := 5,
       yes_avg_price := 2/5, no_avg_price := 1/2, yes_cost_basis := 4,
       no_cost_basis := 5/2, realized_pnl := 0 }]
    [("alice", 0)] "m" true
    { market_id := "m", outcome := "YES", total_payout := 10,
      positions_settled := 1,
      results := [{ user_id := "alice", market_id := "m", winning_shares := 10,
                    losing_shares := 5, payout := 10, winning_cost_basis := 4,
                    losing_cost_basis := 5/2, profit_loss := 7/2,
                    new_balance := 10 }] }
    [{ user_id := "alice", market_id := "m", yes_shares := 0, no_shares := 0,
       yes_avg_price := 2/5, no_avg_price := 1/2, yes_cost_basis := 0,
       no_cost_basis := 0, realized_pnl := 7/2 }]
    [("alice", 10)] [("m", MarketStatus.RESOLVED)]
    (by
      intro p hp
      rw [List.mem_singleton] at hp
      subst hp
      exact ⟨⟨40000, by norm_num⟩, ⟨25000, by norm_num⟩, ⟨0, by norm_num⟩⟩)
    (by
      have h10 : roundQ 4 (10:ℚ) = 10 := roundQ_eq_self 4 _ 100000 (by norm_num)
      have h4 : roundQ 4 (4:ℚ) = 4 := roundQ_eq_self 4 _ 40000 (by norm_num)
      have h52 : roundQ 4 ((5:ℚ)/2) = 5/2 := roundQ_eq_self 4 _ 25000 (by norm_num)
      have h72 : roundQ 4 ((7:ℚ)/2) = 7/2 := roundQ_eq_self 4 _ 35000 (by norm_num)
      norm_num [resolve_market, settleLoop, settle_position, lookupUser, storeUser,
        List.find?, h10, h4, h52, h72, String.reduceEq, reduceIte, reduceCtorEq]
      simp [h10, h4, h52, h72])

/-! ## C1: no crossed book survives a submission -/

/-- The inner walk stops only when the level has emptied or the incoming
quantity is exhausted. -/
theorem matchInner_exit (mid oid uid side action : String) (now : ℕ)
    (os : List BookOrder) : ∀ (r : ℕ) (ts : List TradeResult),
    (matchInner mid oid uid side action now os r ts).1 ≠ [] →
    (matchInner mid oid uid side action now os r ts).2.1 = 0 := by
  induction os with
  | nil =>
    intro r ts hne
    rw [matchInner] at hne
    exact absurd rfl hne
  | cons o rest ih =>
    intro r ts hne
    by_cases hr : r = 0
    · rw [matchInner, if_pos hr]
      exact hr
    · rw [matchInner, if_neg hr] at hne ⊢
      by_cases hu : o.user_id = uid
      · rw [if_pos hu] at hne ⊢
        exact ih r ts hne
      · rw [if_neg hu] at hne ⊢
        by_cases hq : o.quantity - min r o.quantity = 0
        · simp only [if_pos hq] at hne ⊢
          exact ih _ _ hne
        · simp only [if_neg hq] at hne ⊢
          omega

/-- The outer loop only pops whole levels from the front and shrinks the
head level's orders, so the resulting price list is a suffix of the
original. -/
theorem matchOuter_prices_suffix (mid oid uid side action otype : String)
    (price : Option ℚ) (now : ℕ) (lvls : List PriceLevel) :
    ∀ (r : ℕ) (ts : List TradeResult),
    ((matchOuter mid oid uid side action otype price now lvls r ts).2.2).map
        PriceLevel.price <:+ lvls.map PriceLevel.price := by
  induction lvls with
  | nil =>
    intro r ts
    rw [matchOuter]
    by_cases hr : r = 0 <;> simp [hr]
  | cons lvl rest ih =>
    intro r ts
    by_cases hr : r = 0
    · rw [matchOuter, if_pos hr]
    · by_cases hacc : priceAcceptable otype action price lvl.price = false
      · rw [matchOuter, if_neg hr]
        simp only [hacc, reduceIte]
        exact List.suffix_refl _
      · rw [matchOuter, if_neg hr]
        simp only [hacc, reduceIte]
        rw [if_neg (by simp)]
        by_cases hemp : (matchInner mid oid uid side action now lvl.orders r ts).1 = []
        · rw [if_pos hemp]
          exact (ih _ _).trans (List.suffix_cons _ _)
        · rw [if_neg hemp]
          simp only [List.map_cons]
          exact List.suffix_refl _

/-- When the outer loop returns with quantity remaining, the head of the
surviving opposing levels (if any) failed the acceptability test — for a
LIMIT BUY its price exceeds the (still unfilled) incoming limit, and dually
for a SELL. -/
theorem matchOuter_exit (mid oid uid side action otype : String)
    (price : Option ℚ) (now : ℕ) (lvls : List PriceLevel) :
    ∀ (r : ℕ) (ts : List TradeResult),
    (matchOuter mid oid uid side action otype price now lvls r ts).2.1 ≠ 0 →
    ∀ lvl0 ∈ ((matchOuter mid oid uid side action otype price now lvls r ts).2.2).head?,
      priceAcceptable otype action price lvl0.price = false := by
  induction lvls with
  | nil =>
    intro r ts hrem lvl0 h0
    rw [matchOuter] at h0
    by_cases hr : r = 0 <;> simp [hr] at h0
  | cons lvl rest ih =>
    intro r ts hrem lvl0 h0
    by_cases hr : r = 0
    · rw [matchOuter, if_pos hr] at hrem
      exact absurd hr hrem
    · by_cases hacc : priceAcceptable otype action price lvl.price = false
      · rw [matchOuter, if_neg hr] at h0
        simp only [hacc, reduceIte] at h0
        rw [Option.mem_def, List.head?_cons, Option.some.injEq] at h0
        rw [← h0]
        exact hacc
      · rw [matchOuter, if_neg hr] at hrem h0
        simp only [hacc, reduceIte] at hrem h0
        rw [if_neg (by simp)] at hrem h0
        by_cases hemp : (matchInner mid oid uid side action now lvl.orders r ts).1 = []
        · rw [if_pos hemp] at hrem h0
          exact ih _ _ hrem lvl0 h0
        · rw [if_neg hemp] at hrem
          exact absurd (matchInner_exit mid oid uid side action now lvl.orders r ts hemp)
            hrem

/-- In a strictly ascending price list, the head of a suffix is at least
the head of the full list. -/
theorem suffix_head_mono_asc (l' l : List ℚ) (h : l' <:+ l)
    (hp : l.Pairwise (· < ·)) (a b : ℚ) (ha : l'.head? = some a)
    (hb : l.head? = some b) : b ≤ a := by
  cases l' with
  | nil => cases ha
  | cons c t' =>
    rw [List.head?_cons, Option.some.injEq] at ha
    cases l with
    | nil => cases hb
    | cons d t =>
      rw [List.head?_cons, Option.some.injEq] at hb
      subst ha
      subst hb
      have hmem : c ∈ d :: t := h.sublist.subset (List.mem_cons_self c t')
      rcases List.mem_cons.mp hmem with rfl | hmem
      · exact le_refl c
      · exact le_of_lt ((List.pairwise_cons.mp hp).1 c hmem)

/-- In a strictly descending price list, the head of a suffix is at most
the head of the full list. -/
theorem suffix_head_mono_desc (l' l : List ℚ) (h : l' <:+ l)
    (hp : l.Pairwise (fun x y => y < x)) (a b : ℚ) (ha : l'.head? = some a)
    (hb : l.head? = some b) : a ≤ b := by
  cases l' with
  | nil => cases ha
  | cons c t' =>
    rw [List.head?_cons, Option.some.injEq] at ha
    cases l with
    | nil => cases hb
    | cons d t =>
      rw [List.head?_cons, Option.some.injEq] at hb
      subst ha
      subst hb
      have hmem : c ∈ d :: t := h.sublist.subset (List.mem_cons_self c t')
      rcases List.mem_cons.mp hmem with rfl | hmem
      · exact le_refl c
      · exact le_of_lt ((List.pairwise_cons.mp hp).1 c hmem)

/-- Every price present after a level insertion is the inserted price or an
already-present price. -/
theorem sideAddOrder_prices (side : BookSide) (o : BookOrder)
    (lvls : List PriceLevel) :
    ∀ x ∈ (sideAddOrder side o lvls).map PriceLevel.price,
      x = o.price ∨ x ∈ lvls.map PriceLevel.price := by
  induction lvls with
  | nil =>
    intro x hx
    simp [sideAddOrder, PriceLevel.add_order] at hx
    exact Or.inl hx
  | cons lvl rest ih =>
    intro x hx
    rw [sideAddOrder] at hx
    by_cases he : lvl.price = o.price
    · rw [if_pos he] at hx
      rw [List.map_cons, List.mem_cons] at hx
      rcases hx with hx | hx
      · refine Or.inl ?_
        rw [hx]
        simpa [PriceLevel.add_order] using he
      · refine Or.inr ?_
        rw [List.map_cons]
        exact List.mem_cons_of_mem _ hx
    · rw [if_neg he] at hx
      by_cases hpast : pastPrice side lvl.price o.price
      · rw [if_pos hpast] at hx
        rw [List.map_cons, List.mem_cons] at hx
        rcases hx with hx | hx
        · exact Or.inl (by rw [hx]; rfl)
        · refine Or.inr ?_
          rw [List.map_cons] at hx ⊢
          exact hx
      · rw [if_neg hpast] at hx
        rw [List.map_cons, List.mem_cons] at hx
        rcases hx with hx | hx
        · refine Or.inr ?_
          rw [List.map_cons, hx]
          exact List.mem_cons_self _ _
        · rcases ih x hx with hx | hx
          · exact Or.inl hx
          · refine Or.inr ?_
            rw [List.map_cons]
            exact List.mem_cons_of_mem _ hx

/-- Inserting into a strictly-descending (best-bid-first) level list keeps
it strictly descending. -/
theorem sideAddOrder_sorted_bid (o : BookOrder) (lvls : List PriceLevel)
    (hp : (lvls.map PriceLevel.price).Pairwise (fun x y => y < x)) :
    ((sideAddOrder .BID o lvls).map PriceLevel.price).Pairwise (fun x y => y < x) := by
  induction lvls with
  | nil => simp [sideAddOrder, PriceLevel.add_order]
  | cons lvl rest ih =>
    rw [List.map_cons, List.pairwise_cons] at hp
    obtain ⟨hlvl, hrest⟩ := hp
    rw [sideAddOrder]
    by_cases he : lvl.price = o.price
    · rw [if_pos he, List.map_cons, List.pairwise_cons]
      exact ⟨fun x hx => hlvl x hx, hrest⟩
    · by_cases hpast : pastPrice .BID lvl.price o.price
      · rw [if_neg he, if_pos hpast]
        have hlt : lvl.price < o.price := by simpa [pastPrice] using hpast
        rw [List.map_cons, List.map_cons, List.pairwise_cons]
        constructor
        · intro x hx
          rcases List.mem_cons.mp hx with rfl | hx
          · exact hlt
          · exact lt_trans (hlvl x hx) hlt
        · rw [List.pairwise_cons]
          exact ⟨hlvl, hrest⟩
      · rw [if_neg he, if_neg hpast]
        have hgt : o.price < lvl.price := by
          have h1 : ¬ lvl.price < o.price := by simpa [pastPrice] using hpast
          exact lt_of_le_of_ne (le_of_not_lt h1) (fun heq => he heq.symm)
        rw [List.map_cons, List.pairwise_cons]
        constructor
        · intro x hx
          rcases sideAddOrder_prices .BID o rest x hx with rfl | hx
          · exact hgt
          · exact hlvl x hx
        · exact ih hrest

/-- Inserting into a strictly-ascending (best-ask-first) level list keeps
it strictly ascending. -/
theorem sideAddOrder_sorted_ask (o : BookOrder) (lvls : List PriceLevel)
    (hp : (lvls.map PriceLevel.price).Pairwise (· < ·)) :
    ((sideAddOrder .ASK o lvls).map PriceLevel.price).Pairwise (· < ·) := by
  induction lvls with
  | nil => simp [sideAddOrder, PriceLevel.add_order]
  | cons lvl rest ih =>
    rw [List.map_cons, List.pairwise_cons] at hp
    obtain ⟨hlvl, hrest⟩ := hp
    rw [sideAddOrder]
    by_cases he : lvl.price = o.price
    · rw [if_pos he, List.map_cons, List.pairwise_cons]
      exact ⟨fun x hx => hlvl x hx, hrest⟩
    · by_cases hpast : pastPrice .ASK lvl.price o.price
      · rw [if_neg he, if_pos hpast]
        have hlt : o.price < lvl.price := by simpa [pastPrice] using hpast
        rw [List.map_cons, List.map_cons, List.pairwise_cons]
        constructor
        · intro x hx
          rcases List.mem_cons.mp hx with rfl | hx
          · exact hlt
          · exact lt_trans hlt (hlvl x hx)
        · rw [List.pairwise_cons]
          exact ⟨hlvl, hrest⟩
      · rw [if_neg he, if_neg hpast]
        have hgt : lvl.price < o.price := by
          have h1 : ¬ o.price < lvl.price := by simpa [pastPrice] using hpast
          exact lt_of_le_of_ne (le_of_not_lt h1) he
        rw [List.map_cons, List.pairwise_cons]
        constructor
        · intro x hx
          rcases sideAddOrder_prices .ASK o rest x hx with rfl | hx
          · exact hgt
          · exact hlvl x hx
        · exact ih hrest

/-- After a bid-side insertion the best (head) price is the max of the
inserted price and the previous best. -/
theorem sideAddOrder_head_bid (o : BookOrder) (lvls : List PriceLevel) :
    ((sideAddOrder .BID o lvls).map PriceLevel.price).head? =
      some (max o.price (((lvls.map PriceLevel.price).head?).getD o.price)) := by
  cases lvls with
  | nil => simp [sideAddOrder, PriceLevel.add_order]
  | cons lvl rest =>
    rw [sideAddOrder]
    by_cases he : lvl.price = o.price
    · rw [if_pos he]
      simp [PriceLevel.add_order, he]
    · by_cases hpast : pastPrice .BID lvl.price o.price
      · rw [if_neg he, if_pos hpast]
        have hlt : lvl.price < o.price := by simpa [pastPrice] using hpast
        simp [PriceLevel.add_order, max_eq_left (le_of_lt hlt)]
      · rw [if_neg he, if_neg hpast]
        have hge : o.price ≤ lvl.price := by
          have h1 : ¬ lvl.price < o.price := by simpa [pastPrice] using hpast
          exact le_of_not_lt h1
        simp [max_eq_right hge]

/-- After an ask-side insertion the best (head) price is the min of the
inserted price and the previous best. -/
theorem sideAddOrder_head_ask (o : BookOrder) (lvls : List PriceLevel) :
    ((sideAddOrder .ASK o lvls).map PriceLevel.price).head? =
      some (min o.price (((lvls.map PriceLevel.price).head?).getD o.price)) := by
  cases lvls with
  | nil => simp [sideAddOrder, PriceLevel.add_order]
  | cons lvl rest =>
    rw [sideAddOrder]
    by_cases he : lvl.price = o.price
    · rw [if_pos he]
      simp [PriceLevel.add_order, he]
    · by_cases hpast : pastPrice .ASK lvl.price o.price
      · rw [if_neg he, if_pos hpast]
        have hlt : o.price < lvl.price := by simpa [pastPrice] using hpast
        simp [PriceLevel.add_order, min_eq_left (le_of_lt hlt)]
      · rw [if_neg he, if_neg hpast]
        have hge : lvl.price ≤ o.price := by
          have h1 : ¬ o.price < lvl.price := by simpa [pastPrice] using hpast
          exact le_of_not_lt h1
        simp [min_eq_right hge]

/-- Bid levels are kept best (highest) first: strictly descending prices. -/
def SortedBidLevels (lvls : List PriceLevel) : Prop :=
  (lvls.map PriceLevel.price).Pairwise (fun x y => y < x)

/-- Ask levels are kept best (lowest) first: strictly ascending prices. -/
def SortedAskLevels (lvls : List PriceLevel) : Prop :=
  (lvls.map PriceLevel.price).Pairwise (· < ·)

/-- No crossed book: whenever both sides are non-empty, the best (highest)
bid price is strictly below the best (lowest) ask price. -/
def BookNoCross (b : OrderBook) : Prop :=
  ∀ pb ∈ (b.bids.map PriceLevel.price).head?,
  ∀ pa ∈ (b.asks.map PriceLevel.price).head?, pb < pa

/-- The order-book invariant `process_order` maintains. -/
def BookInv (b : OrderBook) : Prop :=
  SortedBidLevels b.bids ∧ SortedAskLevels b.asks ∧ BookNoCross b

/-- The empty book satisfies the invariant. -/
theorem bookInv_empty : BookInv OrderBook.empty := by
  refine ⟨List.Pairwise.nil, List.Pairwise.nil, ?_⟩
  intro pb hpb pa hpa
  cases hpb

/-- Core preservation: one `bookSubmit` (the post-validation slice of
`process_order`) keeps the book invariant — matching only shrinks the
opposing side from the front, and a remaining LIMIT quantity rests strictly
on the non-crossing side of the surviving best opposing price. -/
theorem bookSubmit_inv (book : OrderBook) (mid oid uid side action otype : String)
    (q : ℕ) (price : Option ℚ) (mm : Bool) (now : ℕ) (hinv : BookInv book) :
    BookInv (bookSubmit book mid oid uid side action otype q price mm now).2.2.2 := by
  obtain ⟨hbid, hask, hcross⟩ := hinv
  by_cases hb : action = "BUY"
  · simp only [bookSubmit, matchOrderOnBook, hb, reduceIte]
    set R := matchOuter mid oid uid side "BUY" otype price now book.asks q [] with hR
    have hsuf : R.2.2.map PriceLevel.price <:+ book.asks.map PriceLevel.price := by
      rw [hR]
      exact matchOuter_prices_suffix mid oid uid side "BUY" otype price now book.asks q []
    have hask' : SortedAskLevels R.2.2 := hask.sublist hsuf.sublist
    have hasks_ne : ∀ pa, (R.2.2.map PriceLevel.price).head? = some pa →
        ∃ pa0, (book.asks.map PriceLevel.price).head? = some pa0 ∧ pa0 ≤ pa := by
      intro pa hpa
      have hne : book.asks.map PriceLevel.price ≠ [] := by
        intro hc
        rw [hc, List.suffix_nil] at hsuf
        rw [hsuf] at hpa
        cases hpa
      obtain ⟨pa0, hpa0⟩ : ∃ y, (book.asks.map PriceLevel.price).head? = some y := by
        cases hh : (book.asks.map PriceLevel.price).head? with
        | none => exact absurd (List.head?_eq_none_iff.mp hh) hne
        | some y => exact ⟨y, rfl⟩
      exact ⟨pa0, hpa0, suffix_head_mono_asc _ _ hsuf hask pa pa0 hpa hpa0⟩
    by_cases hrest : R.2.1 > 0 ∧ otype = "LIMIT"
    · rw [if_pos hrest]
      cases price with
      | none =>
        refine ⟨hbid, hask', ?_⟩
        intro pb hpb pa hpa
        obtain ⟨pa0, hpa0, hle⟩ := hasks_ne pa hpa
        exact lt_of_lt_of_le (hcross pb hpb pa0 hpa0) hle
      | some p =>
        simp only [OrderBook.add_order]
        refine ⟨sideAddOrder_sorted_bid _ _ hbid, hask', ?_⟩
        intro pb hpb pa hpa
        rw [Option.mem_def, sideAddOrder_head_bid, Option.some.injEq] at hpb
        have hexit := matchOuter_exit mid oid uid side "BUY" otype (some p) now book.asks q []
        rw [← hR] at hexit
        obtain ⟨lvl0, hlvl0, hlvl0p⟩ : ∃ lvl0, R.2.2.head? = some lvl0 ∧ lvl0.price = pa := by
          rw [Option.mem_def, List.head?_map] at hpa
          rcases Option.map_eq_some'.mp hpa with ⟨lvl0, h1, h2⟩
          exact ⟨lvl0, h1, h2⟩
        have hacc := hexit (by omega) lvl0 hlvl0
        have hpa_gt : p < pa := by
          rw [priceAcceptable, hrest.2] at hacc
          simp only [reduceIte, String.reduceEq] at hacc
          rw [hlvl0p] at hacc
          simpa using hacc
        rw [← hpb]
        rcases hcb : (book.bids.map PriceLevel.price).head? with _ | pb0
        · simpa [hcb] using hpa_gt
        · obtain ⟨pa0, hpa0, hle⟩ := hasks_ne pa hpa
          have hpb0 : pb0 < pa := lt_of_lt_of_le (hcross pb0 (by rw [hcb]; rfl) pa0 hpa0) hle
          simp only [hcb, Option.getD_some]
          exact max_lt hpa_gt hpb0
    · rw [if_neg hrest]
      refine ⟨hbid, hask', ?_⟩
      intro pb hpb pa hpa
      obtain ⟨pa0, hpa0, hle⟩ := hasks_ne pa hpa
      exact lt_of_lt_of_le (hcross pb hpb pa0 hpa0) hle
  · simp only [bookSubmit, matchOrderOnBook, if_neg hb,
      if_neg (fun hc : action = "BUY" => hb hc)]
    set R := matchOuter mid oid uid side action otype price now book.bids q [] with hR
    have hsuf : R.2.2.map PriceLevel.price <:+ book.bids.map PriceLevel.price := by
      rw [hR]
      exact matchOuter_prices_suffix mid oid uid side action otype price now book.bids q []
    have hbid' : SortedBidLevels R.2.2 := hbid.sublist hsuf.sublist
    have hbids_ne : ∀ pb, (R.2.2.map PriceLevel.price).head? = some pb →
        ∃ pb0, (book.bids.map PriceLevel.price).head? = some pb0 ∧ pb ≤ pb0 := by
      intro pb hpb
      have hne : book.bids.map PriceLevel.price ≠ [] := by
        intro hc
        rw [hc, List.suffix_nil] at hsuf
        rw [hsuf] at hpb
        cases hpb
      obtain ⟨pb0, hpb0⟩ : ∃ y, (book.bids.map PriceLevel.price).head? = some y := by
        cases hh : (book.bids.map PriceLevel.price).head? with
        | none => exact absurd (List.head?_eq_none_iff.mp hh) hne
        | some y => exact ⟨y, rfl⟩
      exact ⟨pb0, hpb0, suffix_head_mono_desc _ _ hsuf hbid pb pb0 hpb hpb0⟩
    by_cases hrest : R.2.1 > 0 ∧ otype = "LIMIT"
    · rw [if_pos hrest]
      cases price with
      | none =>
        refine ⟨hbid', hask, ?_⟩
        intro pb hpb pa hpa
        obtain ⟨pb0, hpb0, hle⟩ := hbids_ne pb hpb
        exact lt_of_le_of_lt hle (hcross pb0 hpb0 pa hpa)
      | some p =>
        simp only [OrderBook.add_order]
        refine ⟨hbid', sideAddOrder_sorted_ask _ _ hask, ?_⟩
        intro pb hpb pa hpa
        rw [Option.mem_def, sideAddOrder_head_ask, Option.some.injEq] at hpa
        have hexit := matchOuter_exit mid oid uid side action otype (some p) now book.bids q []
        rw [← hR] at hexit
        obtain ⟨lvl0, hlvl0, hlvl0p⟩ : ∃ lvl0, R.2.2.head? = some lvl0 ∧ lvl0.price = pb := by
          rw [Option.mem_def, List.head?_map] at hpb
          rcases Option.map_eq_some'.mp hpb with ⟨lvl0, h1, h2⟩
          exact ⟨lvl0, h1, h2⟩
        have hacc := hexit (by omega) lvl0 hlvl0
        have hpb_lt : pb < p := by
          rw [priceAcceptable, hrest.2] at hacc
          simp only [reduceIte, String.reduceEq] at hacc
          rw [if_neg hb, hlvl0p] at hacc
          simpa using hacc
        rw [← hpa]
        rcases hca : (book.asks.map PriceLevel.price).head? with _ | pa0
        · simpa [hca] using hpb_lt
        · obtain ⟨pb0, hpb0, hle⟩ := hbids_ne pb hpb
          have hpa0 : pb < pa0 := lt_of_le_of_lt hle (hcross pb0 hpb0 pa0 (by rw [hca]; rfl))
          simp only [hca, Option.getD_some]
          exact lt_min hpb_lt hpa0
    · rw [if_neg hrest]
      refine ⟨hbid', hask, ?_⟩
      intro pb hpb pa hpa
      obtain ⟨pb0, hpb0, hle⟩ := hbids_ne pb hpb
      exact lt_of_le_of_lt hle (hcross pb0 hpb0 pa hpa)

/-- A successful dictionary lookup returns a stored entry. -/
theorem lookupBooks_mem (l : List (String × MarketOrderBooks)) (mid : String)
    (m : MarketOrderBooks) (h : lookupBooks l mid = some m) : (mid, m) ∈ l := by
  induction l with
  | nil => cases h
  | cons e es ih =>
    rw [lookupBooks] at h
    by_cases he : e.1 = mid
    · rw [if_pos he] at h
      injection h with h
      rw [← he, ← h]
      exact List.mem_cons_self _ _
    · rw [if_neg he] at h
      exact List.mem_cons_of_mem _ (ih h)

/-- Entries after a dictionary write are old entries or the written one. -/
theorem storeBooks_mem (l : List (String × MarketOrderBooks)) (mid : String)
    (m : MarketOrderBooks) (kv : String × MarketOrderBooks)
    (h : kv ∈ storeBooks l mid m) : kv ∈ l ∨ kv = (mid, m) := by
  induction l with
  | nil => cases h
  | cons e es ih =>
    rw [storeBooks] at h
    by_cases he : e.1 = mid
    · rw [if_pos he] at h
      rcases List.mem_cons.mp h with rfl | h
      · exact Or.inr (by rw [he])
      · exact Or.inl (List.mem_cons_of_mem _ h)
    · rw [if_neg he] at h
      rcases List.mem_cons.mp h with rfl | h
      · exact Or.inl (List.mem_cons_self _ _)
      · rcases ih h with h | h
        · exact Or.inl (List.mem_cons_of_mem _ h)
        · exact Or.inr h


/-- `get_book` only ever hands out the YES or the NO book. -/
theorem get_book_ok (m : MarketOrderBooks) (side : String) (b : OrderBook)
    (h : m.get_book side = .ok b) : b = m.yes_book ∨ b = m.no_book := by
  rw [MarketOrderBooks.get_book] at h
  by_cases hy : pyUpper side = "YES"
  · rw [if_pos hy] at h
    injection h with h
    exact Or.inl h.symm
  · rw [if_neg hy] at h
    by_cases hn : pyUpper side = "NO"
    · rw [if_pos hn] at h
      injection h with h
      exact Or.inr h.symm
    · rw [if_neg hn] at h
      cases h

/-- After `set_book`, each stored book is the written one or unchanged. -/
theorem set_book_books (m : MarketOrderBooks) (side : String) (b : OrderBook) :
    ((m.set_book side b).yes_book = b ∨ (m.set_book side b).yes_book = m.yes_book) ∧
    ((m.set_book side b).no_book = b ∨ (m.set_book side b).no_book = m.no_book) := by
  rw [MarketOrderBooks.set_book]
  by_cases hy : pyUpper side = "YES"
  · rw [if_pos hy]
    exact ⟨Or.inl rfl, Or.inr rfl⟩
  · rw [if_neg hy]
    by_cases hn : pyUpper side = "NO"
    · rw [if_pos hn]
      exact ⟨Or.inr rfl, Or.inl rfl⟩
    · rw [if_neg hn]
      exact ⟨Or.inr rfl, Or.inr rfl⟩

/-- The engine invariant: every market's YES and NO books satisfy the book
invariant. -/
def EngineInv (e : MatchingEngine) : Prop :=
  ∀ kv ∈ e.books, BookInv kv.2.yes_book ∧ BookInv kv.2.no_book

/-- One `process_order` call — successful or raising — preserves the
engine invariant. -/
theorem process_order_inv (e : MatchingEngine) (mid oid uid side action otype : String)
    (q : ℤ) (price : Option ℚ) (mm : Bool) (now : ℕ) (hinv : EngineInv e) :
    EngineInv (e.process_order mid oid uid side action otype q price mm now).2 := by
  simp only [MatchingEngine.process_order]
  by_cases h1 : otype = "LIMIT" ∧ price = none
  · rw [if_pos h1]
    exact hinv
  rw [if_neg h1]
  by_cases h2 : otype = "LIMIT" ∧ ((price.getD 0) < 1/100 ∨ 99/100 < (price.getD 0))
  · rw [if_pos h2]
    exact hinv
  rw [if_neg h2]
  by_cases h3 : q ≤ 0
  · rw [if_pos h3]
    exact hinv
  rw [if_neg h3]
  have hstep : ∀ (books : MarketOrderBooks) (e1 : MatchingEngine),
      e.get_or_create_books mid = (books, e1) →
      EngineInv e1 ∧ (BookInv books.yes_book ∧ BookInv books.no_book) := by
    intro books e1 hgc
    rw [MatchingEngine.get_or_create_books] at hgc
    cases hlk : lookupBooks e.books mid with
    | some m =>
      rw [hlk] at hgc
      injection hgc with hg1 hg2
      subst hg1
      subst hg2
      exact ⟨hinv, hinv _ (lookupBooks_mem e.books mid m hlk)⟩
    | none =>
      rw [hlk] at hgc
      injection hgc with hg1 hg2
      subst hg1
      subst hg2
      constructor
      · intro kv hkv
        rcases List.mem_append.mp hkv with hkv | hkv
        · exact hinv kv hkv
        · rcases List.mem_singleton.mp hkv with rfl
          exact ⟨bookInv_empty, bookInv_empty⟩
      · exact ⟨bookInv_empty, bookInv_empty⟩
  obtain ⟨hInv1, hmob⟩ := hstep (e.get_or_create_books mid).1 (e.get_or_create_books mid).2 rfl
  cases hgb : (e.get_or_create_books mid).1.get_book side with
  | error msg =>
    simp only [hgb]
    exact hInv1
  | ok book =>
    simp only [hgb]
    have hbook : BookInv book := by
      rcases get_book_ok _ _ _ hgb with rfl | rfl
      · exact hmob.1
      · exact hmob.2
    have hbook' : BookInv
        (bookSubmit book mid oid uid side action otype q.toNat price mm now).2.2.2 :=
      bookSubmit_inv book mid oid uid side action otype q.toNat price mm now hbook
    intro kv hkv
    rcases storeBooks_mem _ _ _ _ hkv with hkv | rfl
    · exact hInv1 kv hkv
    · obtain ⟨hy, hn⟩ := set_book_books (e.get_or_create_books mid).1 side
        (bookSubmit book mid oid uid side action otype q.toNat price mm now).2.2.2
      constructor
      · rcases hy with hy | hy <;> rw [hy]
        · exact hbook'
        · exact hmob.1
      · rcases hn with hn | hn <;> rw [hn]
        · exact hbook'
        · exact hmob.2

/-- The engines reachable by a sequence of `process_order` submissions
(completed or raising) from a fresh engine. -/
inductive EngineReachable : MatchingEngine → Prop where
  | init : EngineReachable MatchingEngine.init
  | step : ∀ (e : MatchingEngine) (mid oid uid side action otype : String) (q : ℤ)
      (price : Option ℚ) (mm : Bool) (now : ℕ), EngineReachable e →
      EngineReachable (e.process_order mid oid uid side action otype q price mm now).2

/-- C1: after any sequence of `process_order` submissions on a fresh
engine, every market's YES book and NO book are uncrossed at the moment a
submission returns — whenever both the bid and the ask side are non-empty,
the best (highest) bid price is strictly below the best (lowest) ask
price. -/
theorem C1_no_crossed_book (e : MatchingEngine) (h : EngineReachable e) :
    ∀ kv ∈ e.books, BookNoCross kv.2.yes_book ∧ BookNoCross kv.2.no_book := by
  have hall : EngineInv e := by
    induction h with
    | init => intro kv hkv; cases hkv
    | step e mid oid uid side action otype q price mm now _ ih =>
      exact process_order_inv e mid oid uid side action otype q price mm now ih
  intro kv hkv
  exact ⟨(hall kv hkv).1.2.2, (hall kv hkv).2.2.2⟩

/-- Witness for C1: the engine after one concrete BUY LIMIT submission on
a fresh engine. -/
theorem C1_no_crossed_book_witness :
    (∀ kv ∈ ((MatchingEngine.init.process_order "m" "b1" "u" "YES" "BUY" "LIMIT" 5
        (some (2/5)) false 0).2).books,
      BookNoCross kv.2.yes_book ∧ BookNoCross kv.2.no_book) ∧
    MatchingEngine.init.books = [] :=
  ⟨C1_no_crossed_book _
    (EngineReachable.step _ _ _ _ _ _ _ _ _ _ _ EngineReachable.init), rfl⟩
